import Mathlib

set_option linter.unusedVariables false
set_option linter.unnecessarySimpa false
set_option linter.unnecessarySeqFocus false

/-!
Shallow embedding of the mass-service-system simulator
(`src/Simulation.hpp`, `src/Simulation.cpp`).

Real-valued quantities of the C++ code (`double` times and durations) are
modelled as rationals; random draws (`std::exponential_distribution` samples)
are modelled as explicit oracle streams of rationals, one stream per `Source`
and per `Device`, mirroring the per-object `std::mt19937` generators.
-/

/-- Priority levels, mirroring `enum class Priority`:
CORPORATE = 0 (highest), PREMIUM = 1, FREE = 2 (lowest). -/
inductive Priority where
  | CORPORATE
  | PREMIUM
  | FREE
deriving DecidableEq

/-- The numeric value of a priority, as produced by `static_cast<int>`. -/
def Priority.toNat : Priority → ℕ
  | .CORPORATE => 0
  | .PREMIUM => 1
  | .FREE => 2

/-- The `Request` class: id, priority, arrival time, source index, and the two
mutable timestamps `bufferEnterTime_` and `startServiceTime_`. -/
structure Request where
  id : ℕ
  priority : Priority
  arrivalTime : ℚ
  sourceIndex : ℕ
  bufferEnterTime : ℚ
  startServiceTime : ℚ
deriving DecidableEq

/-- The `Request` constructor: `bufferEnterTime_(arrivalTime)`,
`startServiceTime_(0.0)`. -/
def Request.mkNew (id : ℕ) (p : Priority) (arrivalTime : ℚ) (sourceIndex : ℕ) : Request :=
  { id := id, priority := p, arrivalTime := arrivalTime, sourceIndex := sourceIndex,
    bufferEnterTime := arrivalTime, startServiceTime := 0 }

/-- The effect of `req->setBufferEnterTime(req->getArrivalTime())`, performed by
every successful admission branch of `Buffer::addRequest`. -/
def setBufferEnter (req : Request) : Request :=
  { req with bufferEnterTime := req.arrivalTime }

/-- The fixed constant `BUFFER_SIZE = 8`. -/
def BUFFER_SIZE : ℕ := 8

/-- The rejection counters the buffer reports to its `Controller`:
`rejectedRequests_` and the `rejectedByPriority_` map. -/
structure Counters where
  rejected : ℕ
  rejectedCorporate : ℕ
  rejectedPremium : ℕ
  rejectedFree : ℕ
deriving DecidableEq

/-- The effect of `Controller::incrementRejectedRequests`. -/
def Counters.incrementRejectedRequests (c : Counters) : Counters :=
  { c with rejected := c.rejected + 1 }

/-- The effect of `Controller::incrementRejectedByPriority`. -/
def Counters.incrementRejectedByPriority (c : Counters) (p : Priority) : Counters :=
  match p with
  | .CORPORATE => { c with rejectedCorporate := c.rejectedCorporate + 1 }
  | .PREMIUM => { c with rejectedPremium := c.rejectedPremium + 1 }
  | .FREE => { c with rejectedFree := c.rejectedFree + 1 }

/-- The `std::find_if` + `insert` pair in the non-full branch of
`Buffer::addRequest`: the new request is inserted before the first occupant `r`
for which the comparator lambda returns `true`, i.e. before the first `r` that
does not have strictly lower priority value and does not have equal priority
with an earlier arrival. -/
def insertByPriority (req : Request) : List Request → List Request
  | [] => [req]
  | r :: rest =>
    if r.priority.toNat < req.priority.toNat then
      r :: insertByPriority req rest
    else if r.priority = req.priority ∧ r.arrivalTime < req.arrivalTime then
      r :: insertByPriority req rest
    else
      req :: r :: rest

/-- The `std::find_if` + `erase` pair of the eviction branches: locate the first
element satisfying `p`, remove it, and return it together with the remaining
list; `none` when no element satisfies `p`. -/
def extractFirst (p : Request → Bool) : List Request → Option (Request × List Request)
  | [] => none
  | r :: rest =>
    if p r then some (r, rest)
    else
      match extractFirst p rest with
      | some (ev, rest') => some (ev, r :: rest')
      | none => none

/-- The result of `Buffer::addRequest`: the new buffer contents, the updated
rejection counters of the controller, and the returned `bool`. -/
structure AddResult where
  requests : List Request
  counters : Counters
  added : Bool
deriving DecidableEq

/-- `Buffer::addRequest`, lines 85-190 of `src/Simulation.cpp`.  When there is
room the request is inserted by priority; on a full buffer a FREE arrival is
rejected, a PREMIUM arrival evicts the first FREE occupant (appending itself at
the back) or is rejected, and a CORPORATE arrival evicts the first FREE, else
the first PREMIUM occupant, or is rejected.  Every rejection and eviction
increments the global rejected counter together with the per-priority counter
of the rejected (resp. evicted) request's priority. -/
def Buffer.addRequest (buf : List Request) (c : Counters) (req : Request) : AddResult :=
  if buf.length < BUFFER_SIZE then
    { requests := insertByPriority (setBufferEnter req) buf, counters := c, added := true }
  else if req.priority = .FREE then
    { requests := buf,
      counters := (c.incrementRejectedRequests).incrementRejectedByPriority req.priority,
      added := false }
  else if req.priority = .PREMIUM then
    match extractFirst (fun r => r.priority == .FREE) buf with
    | some (evicted, rest) =>
      { requests := rest ++ [setBufferEnter req],
        counters := (c.incrementRejectedRequests).incrementRejectedByPriority evicted.priority,
        added := true }
    | none =>
      { requests := buf,
        counters := (c.incrementRejectedRequests).incrementRejectedByPriority req.priority,
        added := false }
  else if req.priority = .CORPORATE then
    match extractFirst (fun r => r.priority == .FREE) buf with
    | some (evicted, rest) =>
      { requests := rest ++ [setBufferEnter req],
        counters := (c.incrementRejectedRequests).incrementRejectedByPriority evicted.priority,
        added := true }
    | none =>
      match extractFirst (fun r => r.priority == .PREMIUM) buf with
      | some (evicted, rest) =>
        { requests := rest ++ [setBufferEnter req],
          counters := (c.incrementRejectedRequests).incrementRejectedByPriority evicted.priority,
          added := true }
      | none =>
        { requests := buf,
          counters := (c.incrementRejectedRequests).incrementRejectedByPriority req.priority,
          added := false }
  else
    { requests := buf,
      counters := (c.incrementRejectedRequests).incrementRejectedByPriority req.priority,
      added := false }

/-- `Buffer::popRequest`: remove and return the front element, or `none`. -/
def Buffer.popRequest (buf : List Request) : List Request × Option Request :=
  match buf with
  | [] => ([], none)
  | r :: rest => (rest, some r)

/-- A buffer together with the controller rejection counters it mutates. -/
structure BufSt where
  requests : List Request
  counters : Counters
deriving DecidableEq

/-- One `Buffer::addRequest` call on the combined buffer-and-counters state. -/
def BufSt.add (s : BufSt) (req : Request) : BufSt :=
  let r := Buffer.addRequest s.requests s.counters req
  { requests := r.requests, counters := r.counters }

/-- One `Buffer::popRequest` call on the combined state. -/
def BufSt.pop (s : BufSt) : BufSt :=
  { s with requests := (Buffer.popRequest s.requests).1 }

/-- Buffer states reachable from the empty buffer by any sequence of
`addRequest` / `popRequest` calls. -/
inductive BufReachable : BufSt → Prop where
  | init : BufReachable ⟨[], ⟨0, 0, 0, 0⟩⟩
  | add (req : Request) {s : BufSt} : BufReachable s → BufReachable (s.add req)
  | pop {s : BufSt} : BufReachable s → BufReachable s.pop

/-- The spec's ordering relation on buffer occupants: `a` may stand before `b`
when `priority(a) < priority(b)`, or the priorities are equal and
`arrivalTime(a) <= arrivalTime(b)`. -/
def bufLE (a b : Request) : Prop :=
  a.priority.toNat < b.priority.toNat ∨
    (a.priority = b.priority ∧ a.arrivalTime ≤ b.arrivalTime)

instance (a b : Request) : Decidable (bufLE a b) :=
  inferInstanceAs (Decidable (a.priority.toNat < b.priority.toNat ∨
    (a.priority = b.priority ∧ a.arrivalTime ≤ b.arrivalTime)))

/-! Basic lemmas about the insertion and eviction helpers. -/

theorem insertByPriority_length (req : Request) (l : List Request) :
    (insertByPriority req l).length = l.length + 1 := by
  induction l with
  | nil => rfl
  | cons r rest ih =>
    unfold insertByPriority
    by_cases h1 : r.priority.toNat < req.priority.toNat
    · simp [h1, ih]
    · by_cases h2 : r.priority = req.priority ∧ r.arrivalTime < req.arrivalTime
      · simp [h1, h2, ih]
      · simp [h1, h2]

theorem insertByPriority_mem {x req : Request} {l : List Request}
    (h : x ∈ insertByPriority req l) : x = req ∨ x ∈ l := by
  induction l with
  | nil => simpa [insertByPriority] using h
  | cons r rest ih =>
    unfold insertByPriority at h
    by_cases h1 : r.priority.toNat < req.priority.toNat
    · rw [if_pos h1] at h
      rcases List.mem_cons.mp h with rfl | h
      · exact Or.inr (List.mem_cons_self _ _)
      · rcases ih h with h | h
        · exact Or.inl h
        · exact Or.inr (List.mem_cons_of_mem _ h)
    · rw [if_neg h1] at h
      by_cases h2 : r.priority = req.priority ∧ r.arrivalTime < req.arrivalTime
      · rw [if_pos h2] at h
        rcases List.mem_cons.mp h with rfl | h
        · exact Or.inr (List.mem_cons_self _ _)
        · rcases ih h with h | h
          · exact Or.inl h
          · exact Or.inr (List.mem_cons_of_mem _ h)
      · rw [if_neg h2] at h
        rcases List.mem_cons.mp h with rfl | h
        · exact Or.inl rfl
        · exact Or.inr h

theorem extractFirst_eq_some {p : Request → Bool} :
    ∀ {l : List Request} {ev : Request} {rest : List Request},
    extractFirst p l = some (ev, rest) →
    ∃ l₁ l₂, l = l₁ ++ ev :: l₂ ∧ rest = l₁ ++ l₂ ∧ p ev = true ∧ ∀ x ∈ l₁, p x = false := by
  intro l
  induction l with
  | nil => intro ev rest h; simp [extractFirst] at h
  | cons r tl ih =>
    intro ev rest h
    unfold extractFirst at h
    by_cases hp : p r
    · rw [if_pos hp] at h
      simp only [Option.some.injEq, Prod.mk.injEq] at h
      obtain ⟨rfl, rfl⟩ := h
      exact ⟨[], tl, by simp, by simp, hp, by simp⟩
    · rw [if_neg hp] at h
      cases hex : extractFirst p tl with
      | none => rw [hex] at h; cases h
      | some pr =>
        obtain ⟨ev', rest'⟩ := pr
        rw [hex] at h
        cases h
        obtain ⟨l₁, l₂, rfl, rfl, hpe, hall⟩ := ih hex
        refine ⟨r :: l₁, l₂, by simp, by simp, hpe, ?_⟩
        intro x hx
        rcases List.mem_cons.mp hx with rfl | hx
        · exact Bool.eq_false_iff.mpr (fun hc => hp (by simp_all))
        · exact hall x hx

theorem extractFirst_eq_none {p : Request → Bool} :
    ∀ {l : List Request}, extractFirst p l = none → ∀ x ∈ l, p x = false := by
  intro l
  induction l with
  | nil => intro _ x hx; cases hx
  | cons r tl ih =>
    intro h x hx
    unfold extractFirst at h
    by_cases hp : p r
    · rw [if_pos hp] at h; cases h
    · rw [if_neg hp] at h
      cases hex : extractFirst p tl with
      | none =>
        rcases List.mem_cons.mp hx with rfl | hx
        · exact Bool.eq_false_iff.mpr hp
        · exact ih hex x hx
      | some pr => rw [hex] at h; cases h

theorem extractFirst_length {p : Request → Bool} {l : List Request} {ev : Request}
    {rest : List Request} (h : extractFirst p l = some (ev, rest)) :
    rest.length + 1 = l.length := by
  obtain ⟨l₁, l₂, rfl, rfl, _, _⟩ := extractFirst_eq_some h
  simp
  omega

theorem addRequest_length (buf : List Request) (c : Counters) (req : Request) :
    (Buffer.addRequest buf c req).requests.length =
      if buf.length < BUFFER_SIZE then buf.length + 1 else buf.length := by
  unfold Buffer.addRequest
  by_cases hlen : buf.length < BUFFER_SIZE
  · simp [hlen, insertByPriority_length]
  · rw [if_neg hlen, if_neg hlen]
    cases req.priority with
    | FREE => simp
    | PREMIUM =>
      cases hex : extractFirst (fun r => r.priority == .FREE) buf with
      | none => simp
      | some pr =>
        obtain ⟨ev, rest⟩ := pr
        have := extractFirst_length hex
        simp
        omega
    | CORPORATE =>
      cases hex : extractFirst (fun r => r.priority == .FREE) buf with
      | none =>
        cases hex2 : extractFirst (fun r => r.priority == .PREMIUM) buf with
        | none => simp
        | some pr =>
          obtain ⟨ev, rest⟩ := pr
          have := extractFirst_length hex2
          simp
          omega
      | some pr =>
        obtain ⟨ev, rest⟩ := pr
        have := extractFirst_length hex
        simp
        omega

theorem Priority.toNat_inj {a b : Priority} (h : a.toNat = b.toNat) : a = b := by
  cases a <;> cases b <;> simp_all [Priority.toNat]

theorem bufLE_trans {a b c : Request} (h1 : bufLE a b) (h2 : bufLE b c) : bufLE a c := by
  rcases h1 with h1 | ⟨h1p, h1t⟩ <;> rcases h2 with h2 | ⟨h2p, h2t⟩
  · exact Or.inl (h1.trans h2)
  · exact Or.inl (h2p ▸ h1)
  · exact Or.inl (h1p ▸ h2)
  · exact Or.inr ⟨h1p.trans h2p, h1t.trans h2t⟩

theorem insertByPriority_pairwise {req : Request} {l : List Request}
    (h : l.Pairwise bufLE) : (insertByPriority req l).Pairwise bufLE := by
  induction l with
  | nil => simp [insertByPriority]
  | cons r rest ih =>
    rw [List.pairwise_cons] at h
    obtain ⟨hr, hrest⟩ := h
    unfold insertByPriority
    by_cases h1 : r.priority.toNat < req.priority.toNat
    · rw [if_pos h1, List.pairwise_cons]
      refine ⟨?_, ih hrest⟩
      intro x hx
      rcases insertByPriority_mem hx with rfl | hx
      · exact Or.inl h1
      · exact hr x hx
    · rw [if_neg h1]
      by_cases h2 : r.priority = req.priority ∧ r.arrivalTime < req.arrivalTime
      · rw [if_pos h2, List.pairwise_cons]
        refine ⟨?_, ih hrest⟩
        intro x hx
        rcases insertByPriority_mem hx with rfl | hx
        · exact Or.inr ⟨h2.1, le_of_lt h2.2⟩
        · exact hr x hx
      · rw [if_neg h2, List.pairwise_cons]
        have hreqr : bufLE req r := by
          rcases Nat.lt_or_ge req.priority.toNat r.priority.toNat with hlt | hge
          · exact Or.inl hlt
          · have heq : r.priority = req.priority :=
              Priority.toNat_inj (Nat.le_antisymm hge (Nat.le_of_not_lt h1))
            have hnlt : ¬ r.arrivalTime < req.arrivalTime := fun hc => h2 ⟨heq, hc⟩
            exact Or.inr ⟨heq.symm, le_of_not_lt hnlt⟩
        refine ⟨?_, List.pairwise_cons.mpr ⟨hr, hrest⟩⟩
        intro x hx
        rcases List.mem_cons.mp hx with rfl | hx
        · exact hreqr
        · exact bufLE_trans hreqr (hr x hx)

/-- C1 (amended): the ordering invariant is preserved by `Buffer::addRequest`
when the buffer is not full (the ordered-insertion branch) and by every
`Buffer::popRequest`; the eviction branches of `addRequest` on a full buffer
append at the back and do not preserve it (see the counterexample). -/
theorem c1_ordering_preserved_by_insert_and_pop :
    (∀ (buf : List Request) (c : Counters) (req : Request),
      buf.length < BUFFER_SIZE → buf.Pairwise bufLE →
      (Buffer.addRequest buf c req).requests.Pairwise bufLE) ∧
    (∀ buf : List Request, buf.Pairwise bufLE →
      (Buffer.popRequest buf).1.Pairwise bufLE) := by
  constructor
  · intro buf c req hlen hpw
    unfold Buffer.addRequest
    rw [if_pos hlen]
    exact insertByPriority_pairwise hpw
  · intro buf hpw
    match buf with
    | [] => exact List.Pairwise.nil
    | r :: rest => exact (List.pairwise_cons.mp hpw).2

/-- Witness for C1's amended theorem at a concrete input. -/
theorem c1_ordering_preserved_by_insert_and_pop_witness :
    (([] : List Request).length < BUFFER_SIZE ∧ ([] : List Request).Pairwise bufLE) ∧
    (Buffer.addRequest [] ⟨0, 0, 0, 0⟩ (Request.mkNew 1 .FREE 0 0)).requests.Pairwise bufLE :=
  ⟨⟨by decide, List.Pairwise.nil⟩,
    c1_ordering_preserved_by_insert_and_pop.1 [] ⟨0, 0, 0, 0⟩ (Request.mkNew 1 .FREE 0 0)
      (by decide) List.Pairwise.nil⟩

/-- A request with the given id, priority and (integral) arrival time, as built
by `Source::createRequest` from source index 0. -/
def cexReq (i : ℕ) (p : Priority) : Request := Request.mkNew i p (i : ℚ) 0

/-- A concrete reachable buffer state: eight PREMIUM requests admitted into the
empty buffer, then one CORPORATE request admitted into the now-full buffer.
The CORPORATE arrival evicts the first PREMIUM occupant and is appended at the
back, behind seven PREMIUM occupants. -/
def c1BadState : BufSt :=
  (((((((((BufSt.mk [] ⟨0, 0, 0, 0⟩).add (cexReq 1 .PREMIUM)).add
    (cexReq 2 .PREMIUM)).add (cexReq 3 .PREMIUM)).add (cexReq 4 .PREMIUM)).add
    (cexReq 5 .PREMIUM)).add (cexReq 6 .PREMIUM)).add (cexReq 7 .PREMIUM)).add
    (cexReq 8 .PREMIUM)).add (cexReq 9 .CORPORATE)

theorem c1BadState_reachable : BufReachable c1BadState :=
  .add _ (.add _ (.add _ (.add _ (.add _ (.add _ (.add _ (.add _ (.add _ .init))))))))

/-- C1 is false as stated: the state `c1BadState` is reachable through
`addRequest` alone, and its buffer holds a PREMIUM occupant before a CORPORATE
occupant, violating the ordering invariant. -/
theorem c1_counterexample :
    ¬ (∀ s : BufSt, BufReachable s → s.requests.Pairwise bufLE) := by
  intro h
  have hbad := h c1BadState c1BadState_reachable
  revert hbad
  with_unfolding_all decide

/-- C5: from the empty buffer, no sequence of `addRequest` / `popRequest` calls
ever leaves more than `BUFFER_SIZE = 8` requests in the buffer: insertion only
happens when the length is below 8, and the eviction branches remove exactly
one occupant before appending the incoming request. -/
theorem c5_capacity_invariant (s : BufSt) (h : BufReachable s) :
    s.requests.length ≤ BUFFER_SIZE := by
  induction h with
  | init => decide
  | add req hs ih =>
    show (BufSt.add _ req).requests.length ≤ BUFFER_SIZE
    simp only [BufSt.add, addRequest_length]
    split
    · omega
    · exact ih
  | pop hs ih =>
    rename_i s'
    show (BufSt.pop s').requests.length ≤ BUFFER_SIZE
    simp only [BufSt.pop]
    match hb : s'.requests with
    | [] => simpa [Buffer.popRequest] using (hb ▸ ih)
    | r :: rest =>
      have := hb ▸ ih
      simp only [Buffer.popRequest] at *
      simp at this ⊢
      omega

/-- Witness for C5 at a concrete reachable state. -/
theorem c5_capacity_invariant_witness :
    BufReachable ⟨[], ⟨0, 0, 0, 0⟩⟩ ∧ ([] : List Request).length ≤ BUFFER_SIZE :=
  ⟨BufReachable.init, c5_capacity_invariant _ BufReachable.init⟩

/-! Unfolding lemmas for the full-buffer branches of `Buffer::addRequest`. -/

theorem addRequest_full_free (buf : List Request) (c : Counters) (req : Request)
    (hful : ¬ buf.length < BUFFER_SIZE) (hpr : req.priority = .FREE) :
    Buffer.addRequest buf c req =
      { requests := buf,
        counters := { c with rejected := c.rejected + 1, rejectedFree := c.rejectedFree + 1 },
        added := false } := by
  unfold Buffer.addRequest
  rw [if_neg hful, if_pos hpr, hpr]
  cases c
  simp [Counters.incrementRejectedRequests, Counters.incrementRejectedByPriority]

theorem addRequest_corporate_evict_free (buf : List Request) (c : Counters) (req : Request)
    (evicted : Request) (rest : List Request)
    (hful : ¬ buf.length < BUFFER_SIZE) (hpr : req.priority = .CORPORATE)
    (hex : extractFirst (fun r => r.priority == .FREE) buf = some (evicted, rest)) :
    Buffer.addRequest buf c req =
      { requests := rest ++ [setBufferEnter req],
        counters := (c.incrementRejectedRequests).incrementRejectedByPriority evicted.priority,
        added := true } := by
  unfold Buffer.addRequest
  rw [if_neg hful, if_neg (by rw [hpr]; intro h; cases h),
    if_neg (by rw [hpr]; intro h; cases h), if_pos hpr]
  split
  · rename_i evicted' rest' heq
    rw [hex] at heq
    simp only [Option.some.injEq, Prod.mk.injEq] at heq
    rw [heq.1, heq.2]
  · rename_i heq
    rw [hex] at heq
    cases heq

theorem addRequest_corporate_evict_premium (buf : List Request) (c : Counters) (req : Request)
    (evicted : Request) (rest : List Request)
    (hful : ¬ buf.length < BUFFER_SIZE) (hpr : req.priority = .CORPORATE)
    (hnofree : extractFirst (fun r => r.priority == .FREE) buf = none)
    (hex : extractFirst (fun r => r.priority == .PREMIUM) buf = some (evicted, rest)) :
    Buffer.addRequest buf c req =
      { requests := rest ++ [setBufferEnter req],
        counters := (c.incrementRejectedRequests).incrementRejectedByPriority evicted.priority,
        added := true } := by
  unfold Buffer.addRequest
  rw [if_neg hful, if_neg (by rw [hpr]; intro h; cases h),
    if_neg (by rw [hpr]; intro h; cases h), if_pos hpr]
  split
  · rename_i evicted' rest' heq
    rw [hnofree] at heq
    cases heq
  · split
    · rename_i evicted' rest' heq
      rw [hex] at heq
      simp only [Option.some.injEq, Prod.mk.injEq] at heq
      rw [heq.1, heq.2]
    · rename_i heq
      rw [hex] at heq
      cases heq

theorem addRequest_corporate_reject (buf : List Request) (c : Counters) (req : Request)
    (hful : ¬ buf.length < BUFFER_SIZE) (hpr : req.priority = .CORPORATE)
    (hnofree : extractFirst (fun r => r.priority == .FREE) buf = none)
    (hnoprem : extractFirst (fun r => r.priority == .PREMIUM) buf = none) :
    Buffer.addRequest buf c req =
      { requests := buf,
        counters :=
          { c with rejected := c.rejected + 1, rejectedCorporate := c.rejectedCorporate + 1 },
        added := false } := by
  unfold Buffer.addRequest
  rw [if_neg hful, if_neg (by rw [hpr]; intro h; cases h),
    if_neg (by rw [hpr]; intro h; cases h), if_pos hpr]
  split
  · rename_i evicted' rest' heq
    rw [hnofree] at heq
    cases heq
  · split
    · rename_i evicted' rest' heq
      rw [hnoprem] at heq
      cases heq
    · rw [hpr]
      cases c
      simp [Counters.incrementRejectedRequests, Counters.incrementRejectedByPriority]

/-- C2: admitting a CORPORATE request into a full buffer evicts exactly the
first FREE occupant in iteration order when one exists (crediting the FREE
rejected counters), otherwise the first PREMIUM occupant (crediting the
PREMIUM counters), and is rejected only when all eight occupants are
CORPORATE; every eviction increments the global rejected counter and the
evicted priority's counter by exactly one and leaves the buffer length at 8. -/
theorem c2_corporate_admission_full (buf : List Request) (c : Counters) (req : Request)
    (hful : buf.length = BUFFER_SIZE) (hpr : req.priority = .CORPORATE) :
    (∀ evicted rest,
      extractFirst (fun r => r.priority == .FREE) buf = some (evicted, rest) →
      evicted.priority = .FREE ∧
      (∃ l₁ l₂, buf = l₁ ++ evicted :: l₂ ∧ rest = l₁ ++ l₂ ∧
        ∀ x ∈ l₁, ¬ x.priority = .FREE) ∧
      Buffer.addRequest buf c req =
        { requests := rest ++ [setBufferEnter req],
          counters :=
            { c with rejected := c.rejected + 1, rejectedFree := c.rejectedFree + 1 },
          added := true } ∧
      (rest ++ [setBufferEnter req]).length = BUFFER_SIZE ∧
      (rest ++ [setBufferEnter req]).countP (fun r => r.priority == .FREE) + 1 =
        buf.countP (fun r => r.priority == .FREE)) ∧
    (extractFirst (fun r => r.priority == .FREE) buf = none →
      ∀ evicted rest,
      extractFirst (fun r => r.priority == .PREMIUM) buf = some (evicted, rest) →
      evicted.priority = .PREMIUM ∧
      Buffer.addRequest buf c req =
        { requests := rest ++ [setBufferEnter req],
          counters :=
            { c with rejected := c.rejected + 1, rejectedPremium := c.rejectedPremium + 1 },
          added := true } ∧
      (rest ++ [setBufferEnter req]).length = BUFFER_SIZE) ∧
    (extractFirst (fun r => r.priority == .FREE) buf = none →
      extractFirst (fun r => r.priority == .PREMIUM) buf = none →
      (∀ r ∈ buf, r.priority = .CORPORATE) ∧
      Buffer.addRequest buf c req =
        { requests := buf,
          counters :=
            { c with rejected := c.rejected + 1, rejectedCorporate := c.rejectedCorporate + 1 },
          added := false }) := by
  refine ⟨?_, ?_, ?_⟩
  · intro evicted rest hex
    obtain ⟨l₁, l₂, hbuf, hrest, hpe, hall⟩ := extractFirst_eq_some hex
    have hevp : evicted.priority = .FREE := by simpa using hpe
    have heq := addRequest_corporate_evict_free buf c req evicted rest (by omega) hpr hex
    refine ⟨hevp, ⟨l₁, l₂, hbuf, hrest, fun x hx => by simpa using hall x hx⟩, ?_, ?_, ?_⟩
    · rw [heq, hevp]
      cases c
      simp [Counters.incrementRejectedRequests, Counters.incrementRejectedByPriority]
    · have := extractFirst_length hex
      simp only [List.length_append, List.length_cons, List.length_nil]
      omega
    · subst hbuf
      subst hrest
      simp [List.countP_append, List.countP_cons, hevp, setBufferEnter, hpr]
      omega
  · intro hnofree evicted rest hex
    obtain ⟨l₁, l₂, hbuf, hrest, hpe, hall⟩ := extractFirst_eq_some hex
    have hevp : evicted.priority = .PREMIUM := by simpa using hpe
    have heq :=
      addRequest_corporate_evict_premium buf c req evicted rest (by omega) hpr hnofree hex
    refine ⟨hevp, ?_, ?_⟩
    · rw [heq, hevp]
      cases c
      simp [Counters.incrementRejectedRequests, Counters.incrementRejectedByPriority]
    · have := extractFirst_length hex
      simp only [List.length_append, List.length_cons, List.length_nil]
      omega
  · intro hnofree hnoprem
    refine ⟨?_, addRequest_corporate_reject buf c req (by omega) hpr hnofree hnoprem⟩
    intro r hr
    have h1 := extractFirst_eq_none hnofree r hr
    have h2 := extractFirst_eq_none hnoprem r hr
    cases hc : r.priority with
    | CORPORATE => rfl
    | PREMIUM => rw [hc] at h2; simp at h2
    | FREE => rw [hc] at h1; simp at h1

/-- A full buffer of eight FREE requests, used as a concrete witness input. -/
def c2buf : List Request :=
  [cexReq 1 .FREE, cexReq 2 .FREE, cexReq 3 .FREE, cexReq 4 .FREE,
   cexReq 5 .FREE, cexReq 6 .FREE, cexReq 7 .FREE, cexReq 8 .FREE]

/-- Witness for C2: a CORPORATE arrival to a buffer of eight FREE occupants
evicts the first FREE occupant and is appended. -/
theorem c2_corporate_admission_full_witness :
    c2buf.length = BUFFER_SIZE ∧ (cexReq 9 .CORPORATE).priority = .CORPORATE ∧
    Buffer.addRequest c2buf ⟨0, 0, 0, 0⟩ (cexReq 9 .CORPORATE) =
      { requests :=
          [cexReq 2 .FREE, cexReq 3 .FREE, cexReq 4 .FREE, cexReq 5 .FREE,
           cexReq 6 .FREE, cexReq 7 .FREE, cexReq 8 .FREE, setBufferEnter (cexReq 9 .CORPORATE)],
        counters := ⟨1, 0, 0, 1⟩, added := true } :=
  ⟨rfl, rfl,
    ((c2_corporate_admission_full c2buf ⟨0, 0, 0, 0⟩ (cexReq 9 .CORPORATE) rfl rfl).1
      (cexReq 1 .FREE)
      [cexReq 2 .FREE, cexReq 3 .FREE, cexReq 4 .FREE, cexReq 5 .FREE,
       cexReq 6 .FREE, cexReq 7 .FREE, cexReq 8 .FREE] rfl).2.2.1⟩

/-- C4: a FREE arrival to a full buffer returns failure, leaves the buffer
contents entirely unchanged, and increments the global rejected counter and
the FREE per-priority rejected counter by exactly one. -/
theorem c4_free_full_rejected (buf : List Request) (c : Counters) (req : Request)
    (hful : buf.length = BUFFER_SIZE) (hpr : req.priority = .FREE) :
    Buffer.addRequest buf c req =
      { requests := buf,
        counters := { c with rejected := c.rejected + 1, rejectedFree := c.rejectedFree + 1 },
        added := false } :=
  addRequest_full_free buf c req (by omega) hpr

/-- A full buffer of eight CORPORATE requests, used as a concrete witness
input. -/
def c4buf : List Request :=
  [cexReq 1 .CORPORATE, cexReq 2 .CORPORATE, cexReq 3 .CORPORATE, cexReq 4 .CORPORATE,
   cexReq 5 .CORPORATE, cexReq 6 .CORPORATE, cexReq 7 .CORPORATE, cexReq 8 .CORPORATE]

/-- Witness for C4 at a concrete full buffer. -/
theorem c4_free_full_rejected_witness :
    c4buf.length = BUFFER_SIZE ∧ (cexReq 9 .FREE).priority = .FREE ∧
    Buffer.addRequest c4buf ⟨0, 0, 0, 0⟩ (cexReq 9 .FREE) =
      { requests := c4buf, counters := ⟨1, 0, 0, 1⟩, added := false } :=
  ⟨rfl, rfl, c4_free_full_rejected c4buf ⟨0, 0, 0, 0⟩ (cexReq 9 .FREE) rfl rfl⟩

/-- Rendering of a value in the range 0..99 by the `%02d` conversion of
`std::snprintf`: exactly two decimal digits, zero-padded. -/
def twoDigits (n : ℕ) : String :=
  String.mk [Nat.digitChar (n / 10), Nat.digitChar (n % 10)]

/-- The `formatTime` helper, lines 21-29 of `src/Simulation.cpp`:
`totalMinutes = (int) floor(h * 60)`, `hours = (totalMinutes / 60) % 24`,
`minutes = totalMinutes % 60`, rendered with `"%02d:%02d"`.  The C++ `/` and
`%` on `int` truncate toward zero, i.e. `Int.tdiv` / `Int.tmod`. -/
def formatTime (simulationTimeHours : ℚ) : String :=
  let totalMinutes : ℤ := ⌊simulationTimeHours * 60⌋
  let hours : ℤ := (totalMinutes.tdiv 60).tmod 24
  let minutes : ℤ := totalMinutes.tmod 60
  twoDigits hours.toNat ++ ":" ++ twoDigits minutes.toNat

/-- The formula stated by the spec for the same function: hour field
`(floor(h*60) / 60) mod 24` and minute field `floor(h*60) mod 60`, with
mathematical (Euclidean) division and modulus, each zero-padded to two
digits. -/
def formatTimeSpec (h : ℚ) : String :=
  let totalMinutes : ℤ := ⌊h * 60⌋
  twoDigits ((totalMinutes / 60 % 24).toNat) ++ ":" ++ twoDigits ((totalMinutes % 60).toNat)

/-- C7: for every non-negative input, `formatTime` computes
`totalMinutes = floor(hours * 60)`, hour field `(totalMinutes / 60) mod 24`
and minute field `totalMinutes mod 60`, zero-padded to two digits; in
particular `formatTime 25.5 = "01:30"`. -/
theorem c7_formatTime_correct :
    (∀ h : ℚ, 0 ≤ h → formatTime h = formatTimeSpec h) ∧
    formatTime 25.5 = "01:30" := by
  constructor
  · intro h hnn
    have h60 : (0 : ℚ) ≤ h * 60 := by positivity
    have hfl : 0 ≤ ⌊h * 60⌋ := Int.floor_nonneg.mpr h60
    unfold formatTime formatTimeSpec
    simp only []
    have hdiv : (⌊h * 60⌋).tdiv 60 = ⌊h * 60⌋ / 60 := Int.tdiv_eq_ediv hfl (by norm_num)
    have hdnn : 0 ≤ ⌊h * 60⌋ / 60 := Int.ediv_nonneg hfl (by norm_num)
    have hmod1 : ((⌊h * 60⌋).tdiv 60).tmod 24 = ⌊h * 60⌋ / 60 % 24 := by
      rw [hdiv]
      exact Int.tmod_eq_emod hdnn (by norm_num)
    have hmod2 : (⌊h * 60⌋).tmod 60 = ⌊h * 60⌋ % 60 := Int.tmod_eq_emod hfl (by norm_num)
    rw [hmod1, hmod2]
  · with_unfolding_all decide

/-- Witness for C7's universally quantified part at the concrete input 25.5. -/
theorem c7_formatTime_correct_witness :
    (0 : ℚ) ≤ 25.5 ∧ formatTime 25.5 = formatTimeSpec 25.5 :=
  ⟨by norm_num, c7_formatTime_correct.1 25.5 (by norm_num)⟩

/-! The event-driven engine: events, devices, sources and the controller. -/

/-- The two event types, mirroring `enum class EventType`. -/
inductive EventType where
  | REQUEST_GENERATED
  | REQUEST_SERVED
deriving DecidableEq

/-- The `Event` struct: type, time, the request, and the device id
(`-1` for generated-request events). -/
structure Event where
  type : EventType
  time : ℚ
  request : Request
  deviceId : ℤ
deriving DecidableEq

/-- The `Device` class.  The per-device `std::mt19937 rng_` is modelled by an
infinite oracle stream of exponential service-duration draws together with a
counter of consumed draws. -/
structure Device where
  id : ℤ
  busy : Bool
  finishTime : ℚ
  busyTotalTime : ℚ
  startBusyTime : ℚ
  serviceTimeHours : ℚ
  current : Option Request
  svcStream : ℕ → ℚ
  svcCount : ℕ

/-- The `Device` constructor. -/
def Device.mkNew (id : ℤ) (svcStream : ℕ → ℚ) : Device :=
  { id := id, busy := false, finishTime := 0, busyTotalTime := 0, startBusyTime := 0,
    serviceTimeHours := 0, current := none, svcStream := svcStream, svcCount := 0 }

/-- `Device::loadRequest`: mark busy, record the occupant, draw an exponential
service time from the device's stream, set the finish time, and stamp the
request's `startServiceTime`.  Returns the updated device together with the
stamped request (the C++ mutates the shared `Request` object in place). -/
def Device.loadRequest (d : Device) (req : Request) (currentTimeHours : ℚ) :
    Device × Request :=
  let svc := d.svcStream d.svcCount
  let req' := { req with startServiceTime := currentTimeHours }
  ({ d with
      busy := true
      current := some req'
      startBusyTime := currentTimeHours
      serviceTimeHours := svc
      finishTime := currentTimeHours + svc
      svcCount := d.svcCount + 1 }, req')

/-- `Device::freeDevice`: accumulate busy time, clear the occupant. -/
def Device.freeDevice (d : Device) (timeHours : ℚ) : Device :=
  { d with
    busyTotalTime := d.busyTotalTime + (timeHours - d.startBusyTime)
    busy := false
    current := none }

/-- The `Source` class, with its own random stream (of inter-arrival gap
draws) and the count of draws consumed so far. -/
structure Source where
  priority : Priority
  sourceIndex : ℕ
  gapStream : ℕ → ℚ
  gapCount : ℕ

/-- The `Controller` state: event queue, sources, devices, buffer, counters
and statistics. -/
structure Controller where
  events : List Event
  sources : List Source
  devices : List Device
  buffer : List Request
  globalRequestId : ℕ
  maxRequests : ℕ
  generatedCount : ℕ
  counters : Counters
  totalWaitTime : ℚ
  servedCount : ℕ
  lastEventTime : ℚ

/-- `Controller::popEvent` on the `std::priority_queue<Event>` (ordered by
`time`, smallest first, via the inverted comparison `time > other.time`): an
event of minimal time is removed.  The C++ heap breaks ties between equal
times in an unspecified heap order (spec section 9 flags this as
implementation-defined); this embedding makes the deterministic choice of the
first minimal-time event in insertion order, one consistent refinement. -/
def popMinEvent : List Event → Option (Event × List Event)
  | [] => none
  | e :: rest =>
    match popMinEvent rest with
    | none => some (e, [])
    | some (e', rest') => if e.time ≤ e'.time then some (e, rest) else some (e', e :: rest')

/-- The intermediate state threaded through the device loop of
`Controller::loadRequestsToFreeDevices`. -/
structure LoadRes where
  devices : List Device
  buffer : List Request
  totalWaitTime : ℚ
  servedCount : ℕ
  events : List Event

/-- The `for` loop of `Controller::loadRequestsToFreeDevices`: every idle
device pops the buffer head; a successful pop loads the device, accumulates
`currentTime - bufferEnterTime` into the total wait time, increments the
served counter and pushes the REQUEST_SERVED event; an empty buffer breaks
out of the loop, leaving the remaining devices untouched. -/
def loadSweep (currentTime : ℚ) :
    List Device → List Request → ℚ → ℕ → List Event → LoadRes
  | [], buf, wait, served, evs => ⟨[], buf, wait, served, evs⟩
  | d :: ds, buf, wait, served, evs =>
    if d.busy then
      let r := loadSweep currentTime ds buf wait served evs
      ⟨d :: r.devices, r.buffer, r.totalWaitTime, r.servedCount, r.events⟩
    else
      match Buffer.popRequest buf with
      | (_, none) => ⟨d :: ds, buf, wait, served, evs⟩
      | (buf', some req) =>
        let dr := d.loadRequest req currentTime
        let waitTime := currentTime - req.bufferEnterTime
        let ev : Event := ⟨.REQUEST_SERVED, currentTime + dr.1.serviceTimeHours, dr.2, d.id⟩
        let r := loadSweep currentTime ds buf' (wait + waitTime) (served + 1) (evs ++ [ev])
        ⟨dr.1 :: r.devices, r.buffer, r.totalWaitTime, r.servedCount, r.events⟩

/-- `Controller::loadRequestsToFreeDevices`. -/
def Controller.loadRequestsToFreeDevices (st : Controller) (currentTime : ℚ) : Controller :=
  let r := loadSweep currentTime st.devices st.buffer st.totalWaitTime st.servedCount st.events
  { st with
    devices := r.devices
    buffer := r.buffer
    totalWaitTime := r.totalWaitTime
    servedCount := r.servedCount
    events := r.events }

/-- `Source::scheduleNextRequest`, expressed on the controller state for the
source at index `srcIdx`: do nothing once the generated-request ceiling is
reached, otherwise draw the gap at the current time, allocate the next global
id, create the request (with `bufferEnterTime = arrivalTime`) and push the
arrival event; the source consumes one draw from its stream. -/
def Controller.scheduleNextRequest (st : Controller) (srcIdx : ℕ) (currentTime : ℚ) :
    Controller :=
  if st.generatedCount ≥ st.maxRequests then st
  else
    match st.sources[srcIdx]? with
    | none => st
    | some src =>
      let delta := src.gapStream src.gapCount
      let arrivalTime := currentTime + delta
      let newId := st.globalRequestId + 1
      let newReq := Request.mkNew newId src.priority arrivalTime src.sourceIndex
      { st with
        sources := st.sources.set srcIdx { src with gapCount := src.gapCount + 1 },
        globalRequestId := newId,
        generatedCount := st.generatedCount + 1,
        events := st.events ++ [⟨.REQUEST_GENERATED, arrivalTime, newReq, -1⟩] }

/-- `Controller::handleRequestGenerated`: admit into the buffer; on success
sweep the idle devices; in every case ask the originating source (after the
bounds check on its index) to schedule its next arrival. -/
def Controller.handleRequestGenerated (st : Controller) (req : Request) (currentTime : ℚ) :
    Controller :=
  let res := Buffer.addRequest st.buffer st.counters req
  let st1 := { st with buffer := res.requests, counters := res.counters }
  let st2 := if res.added then st1.loadRequestsToFreeDevices currentTime else st1
  if req.sourceIndex < st2.sources.length then
    st2.scheduleNextRequest req.sourceIndex currentTime
  else st2

/-- `Controller::handleRequestFinished`: free the device `devices_[deviceId-1]`
and sweep the idle devices.  The C++ array access is undefined behaviour when
`deviceId - 1` is out of range; the embedding makes the out-of-range case a
no-op, and claim C9 shows it never occurs in reachable states. -/
def Controller.handleRequestFinished (st : Controller) (deviceId : ℤ) (currentTime : ℚ) :
    Controller :=
  let st1 :=
    if 1 ≤ deviceId then
      match st.devices[(deviceId - 1).toNat]? with
      | some d =>
        { st with
          devices := st.devices.set (deviceId - 1).toNat (d.freeDevice currentTime) }
      | none => st
    else st
  st1.loadRequestsToFreeDevices currentTime

/-- `Controller::updateLastEventTime`. -/
def Controller.updateLastEventTime (st : Controller) (t : ℚ) : Controller :=
  if t > st.lastEventTime then { st with lastEventTime := t } else st

/-- One iteration of the `while` loop in `Controller::work`: if the served
target is not reached and events remain, pop the earliest event, advance
`lastEventTime_`, and dispatch on the event type; otherwise leave the state
unchanged (the loop has exited). -/
def Controller.loopStep (st : Controller) : Controller :=
  if st.servedCount < st.maxRequests then
    match popMinEvent st.events with
    | none => st
    | some (ev, rest) =>
      let st1 := Controller.updateLastEventTime { st with events := rest } ev.time
      match ev.type with
      | .REQUEST_GENERATED => st1.handleRequestGenerated ev.request ev.time
      | .REQUEST_SERVED => st1.handleRequestFinished ev.deviceId ev.time
  else st

/-- `Controller::work` run for `n` loop iterations.  `loopStep` is the
identity exactly on the states where the loop has exited, so every state the
loop ever reaches (including the state `work` returns in) is `runFor n` of
the initial state for some `n`. -/
def Controller.runFor (st : Controller) : ℕ → Controller
  | 0 => st
  | n + 1 => (st.loopStep).runFor n

/-- The exit condition of the `while` loop in `Controller::work`: the served
target has been reached, or the event queue is empty (the loop breaks). -/
def Controller.done (st : Controller) : Bool :=
  decide (st.maxRequests ≤ st.servedCount) || st.events.isEmpty

/-- The `Controller` constructor: sources are created in the order CORPORATE,
PREMIUM, FREE with consecutive source indices starting at 0, and devices are
created with ids `1..numDevices`.  `gaps i` is the oracle random stream of the
source with index `i`; `svcs i` is the stream of the device with id `i + 1`. -/
def Controller.mkNew (numCorporate numPremium numFree numDevices maxRequests : ℕ)
    (gaps : ℕ → ℕ → ℚ) (svcs : ℕ → ℕ → ℚ) : Controller :=
  { events := [],
    sources :=
      ((List.range numCorporate).map fun i =>
        Source.mk .CORPORATE i (gaps i) 0) ++
      ((List.range numPremium).map fun i =>
        Source.mk .PREMIUM (numCorporate + i) (gaps (numCorporate + i)) 0) ++
      ((List.range numFree).map fun i =>
        Source.mk .FREE (numCorporate + numPremium + i)
          (gaps (numCorporate + numPremium + i)) 0),
    devices := (List.range numDevices).map fun i => Device.mkNew ((i + 1 : ℕ) : ℤ) (svcs i),
    buffer := [],
    globalRequestId := 0,
    maxRequests := maxRequests,
    generatedCount := 0,
    counters := ⟨0, 0, 0, 0⟩,
    totalWaitTime := 0,
    servedCount := 0,
    lastEventTime := 0 }

/-- The loop body of `Controller::initRequests`: walk the sources in order;
once the generated count reaches the ceiling stop (the loop breaks);
otherwise draw the source's first inter-arrival gap at time 0, allocate the
next global id, and push the arrival event. -/
def initLoop (maxRequests : ℕ) :
    List Source → ℕ → ℕ → List Event → List Source × ℕ × ℕ × List Event
  | [], gid, gen, evs => ([], gid, gen, evs)
  | src :: rest, gid, gen, evs =>
    if gen ≥ maxRequests then (src :: rest, gid, gen, evs)
    else
      let delta := src.gapStream src.gapCount
      let arrivalTime := 0 + delta
      let gid' := gid + 1
      let newReq := Request.mkNew gid' src.priority arrivalTime src.sourceIndex
      let r := initLoop maxRequests rest gid' (gen + 1)
        (evs ++ [⟨.REQUEST_GENERATED, arrivalTime, newReq, -1⟩])
      ({ src with gapCount := src.gapCount + 1 } :: r.1, r.2.1, r.2.2.1, r.2.2.2)

/-- `Controller::initRequests`. -/
def Controller.initRequests (st : Controller) : Controller :=
  let r := initLoop st.maxRequests st.sources st.globalRequestId st.generatedCount st.events
  { st with
    sources := r.1
    globalRequestId := r.2.1
    generatedCount := r.2.2.1
    events := r.2.2.2 }

/-- The fully initialised controller, as built by `main`: construction
followed by `initRequests`. -/
def Controller.initial (numCorporate numPremium numFree numDevices maxRequests : ℕ)
    (gaps : ℕ → ℕ → ℚ) (svcs : ℕ → ℕ → ℚ) : Controller :=
  (Controller.mkNew numCorporate numPremium numFree numDevices maxRequests gaps svcs).initRequests

/-- The number of pending REQUEST_GENERATED (arrival) events in a queue. -/
def pendingArrivals (evs : List Event) : ℕ :=
  evs.countP (fun ev => ev.type == .REQUEST_GENERATED)

/-- The number of requests currently loaded on a device. -/
def loadedCount (ds : List Device) : ℕ :=
  (ds.filter fun d => d.current.isSome).length

/-! Lemmas about `loadSweep`, the device-dispatch loop. -/

theorem loadSweep_all_busy (t : ℚ) :
    ∀ (ds : List Device) (buf : List Request) (w : ℚ) (s : ℕ) (evs : List Event),
    (∀ d ∈ ds, d.busy = true) →
    loadSweep t ds buf w s evs = ⟨ds, buf, w, s, evs⟩ := by
  intro ds
  induction ds with
  | nil => intro buf w s evs _; rfl
  | cons d0 ds ih =>
    intro buf w s evs hall
    have hb : d0.busy = true := hall d0 (List.mem_cons_self _ _)
    unfold loadSweep
    rw [if_pos hb, ih buf w s evs (fun d hd => hall d (List.mem_cons_of_mem _ hd))]

theorem loadSweep_busy_of_ne_nil (t : ℚ) :
    ∀ (ds : List Device) (buf : List Request) (w : ℚ) (s : ℕ) (evs : List Event),
    (loadSweep t ds buf w s evs).buffer ≠ [] →
    ∀ d ∈ (loadSweep t ds buf w s evs).devices, d.busy = true := by
  intro ds
  induction ds with
  | nil => intro buf w s evs hne d hd; cases hd
  | cons d0 ds ih =>
    intro buf w s evs hne d hd
    unfold loadSweep at hne hd
    by_cases hb : d0.busy
    · rw [if_pos hb] at hne hd
      dsimp only at hne hd
      rcases List.mem_cons.mp hd with rfl | hd
      · exact hb
      · exact ih buf w s evs hne d hd
    · rw [if_neg hb] at hne hd
      match buf with
      | [] =>
        dsimp only [Buffer.popRequest] at hne hd
        exact absurd rfl hne
      | rq :: buf' =>
        dsimp only [Buffer.popRequest] at hne hd
        rcases List.mem_cons.mp hd with rfl | hd
        · rfl
        · exact ih buf' _ _ _ hne d hd

theorem loadSweep_conservation (t : ℚ) :
    ∀ (ds : List Device) (buf : List Request) (w : ℚ) (s : ℕ) (evs : List Event),
    (loadSweep t ds buf w s evs).servedCount + (loadSweep t ds buf w s evs).buffer.length =
      s + buf.length := by
  intro ds
  induction ds with
  | nil => intro buf w s evs; rfl
  | cons d0 ds ih =>
    intro buf w s evs
    unfold loadSweep
    by_cases hb : d0.busy
    · rw [if_pos hb]
      dsimp only
      exact ih buf w s evs
    · rw [if_neg hb]
      match buf with
      | [] => rfl
      | rq :: buf' =>
        show (loadSweep t ds buf' (w + (t - rq.bufferEnterTime)) (s + 1)
            (evs ++ [⟨.REQUEST_SERVED, t + (d0.loadRequest rq t).1.serviceTimeHours,
              (d0.loadRequest rq t).2, d0.id⟩])).servedCount +
          (loadSweep t ds buf' (w + (t - rq.bufferEnterTime)) (s + 1)
            (evs ++ [⟨.REQUEST_SERVED, t + (d0.loadRequest rq t).1.serviceTimeHours,
              (d0.loadRequest rq t).2, d0.id⟩])).buffer.length = s + (rq :: buf').length
        rw [ih]
        simp
        omega

theorem loadSweep_cons_busy (t : ℚ) (d0 : Device) (ds : List Device) (buf : List Request)
    (w : ℚ) (s : ℕ) (evs : List Event) (hb : d0.busy = true) :
    loadSweep t (d0 :: ds) buf w s evs =
      ⟨d0 :: (loadSweep t ds buf w s evs).devices, (loadSweep t ds buf w s evs).buffer,
        (loadSweep t ds buf w s evs).totalWaitTime, (loadSweep t ds buf w s evs).servedCount,
        (loadSweep t ds buf w s evs).events⟩ := by
  conv_lhs => rw [loadSweep]
  rw [if_pos hb]

theorem loadSweep_cons_idle_nil (t : ℚ) (d0 : Device) (ds : List Device)
    (w : ℚ) (s : ℕ) (evs : List Event) (hb : d0.busy = false) :
    loadSweep t (d0 :: ds) [] w s evs = ⟨d0 :: ds, [], w, s, evs⟩ := by
  conv_lhs => rw [loadSweep]
  rw [if_neg (by simp [hb])]
  rfl

theorem loadSweep_cons_idle_load (t : ℚ) (d0 : Device) (ds : List Device) (rq : Request)
    (buf' : List Request) (w : ℚ) (s : ℕ) (evs : List Event) (hb : d0.busy = false) :
    loadSweep t (d0 :: ds) (rq :: buf') w s evs =
      ⟨(d0.loadRequest rq t).1 ::
          (loadSweep t ds buf' (w + (t - rq.bufferEnterTime)) (s + 1)
            (evs ++ [⟨.REQUEST_SERVED, t + (d0.loadRequest rq t).1.serviceTimeHours,
              (d0.loadRequest rq t).2, d0.id⟩])).devices,
        (loadSweep t ds buf' (w + (t - rq.bufferEnterTime)) (s + 1)
          (evs ++ [⟨.REQUEST_SERVED, t + (d0.loadRequest rq t).1.serviceTimeHours,
            (d0.loadRequest rq t).2, d0.id⟩])).buffer,
        (loadSweep t ds buf' (w + (t - rq.bufferEnterTime)) (s + 1)
          (evs ++ [⟨.REQUEST_SERVED, t + (d0.loadRequest rq t).1.serviceTimeHours,
            (d0.loadRequest rq t).2, d0.id⟩])).totalWaitTime,
        (loadSweep t ds buf' (w + (t - rq.bufferEnterTime)) (s + 1)
          (evs ++ [⟨.REQUEST_SERVED, t + (d0.loadRequest rq t).1.serviceTimeHours,
            (d0.loadRequest rq t).2, d0.id⟩])).servedCount,
        (loadSweep t ds buf' (w + (t - rq.bufferEnterTime)) (s + 1)
          (evs ++ [⟨.REQUEST_SERVED, t + (d0.loadRequest rq t).1.serviceTimeHours,
            (d0.loadRequest rq t).2, d0.id⟩])).events⟩ := by
  conv_lhs => rw [loadSweep]
  rw [if_neg (by simp [hb])]
  rfl

theorem loadSweep_served_le (t : ℚ) :
    ∀ (ds : List Device) (buf : List Request) (w : ℚ) (s : ℕ) (evs : List Event),
    (loadSweep t ds buf w s evs).servedCount ≤ s + ds.countP (fun d => !d.busy) := by
  intro ds
  induction ds with
  | nil => intro buf w s evs; simp [loadSweep]
  | cons d0 ds ih =>
    intro buf w s evs
    by_cases hb : d0.busy
    · rw [loadSweep_cons_busy t d0 ds buf w s evs hb]
      dsimp only
      calc (loadSweep t ds buf w s evs).servedCount ≤ s + ds.countP (fun d => !d.busy) :=
            ih buf w s evs
        _ ≤ s + (d0 :: ds).countP (fun d => !d.busy) := by
            simp [List.countP_cons]
    · have hb' : d0.busy = false := by simpa using hb
      match buf with
      | [] =>
        rw [loadSweep_cons_idle_nil t d0 ds w s evs hb']
        simp
      | rq :: buf' =>
        rw [loadSweep_cons_idle_load t d0 ds rq buf' w s evs hb']
        dsimp only
        calc (loadSweep t ds buf' (w + (t - rq.bufferEnterTime)) (s + 1)
              (evs ++ [⟨.REQUEST_SERVED, t + (d0.loadRequest rq t).1.serviceTimeHours,
                (d0.loadRequest rq t).2, d0.id⟩])).servedCount
              ≤ (s + 1) + ds.countP (fun d => !d.busy) := ih _ _ _ _
          _ ≤ s + (d0 :: ds).countP (fun d => !d.busy) := by
              simp [List.countP_cons, hb']
              omega

theorem loadSweep_buffer_sub (t : ℚ) :
    ∀ (ds : List Device) (buf : List Request) (w : ℚ) (s : ℕ) (evs : List Event),
    ∀ rq ∈ (loadSweep t ds buf w s evs).buffer, rq ∈ buf := by
  intro ds
  induction ds with
  | nil => intro buf w s evs rq h; exact h
  | cons d0 ds ih =>
    intro buf w s evs rq h
    by_cases hb : d0.busy
    · rw [loadSweep_cons_busy t d0 ds buf w s evs hb] at h
      exact ih buf w s evs rq h
    · have hb' : d0.busy = false := by simpa using hb
      match buf with
      | [] => rw [loadSweep_cons_idle_nil t d0 ds w s evs hb'] at h; exact h
      | rq0 :: buf' =>
        rw [loadSweep_cons_idle_load t d0 ds rq0 buf' w s evs hb'] at h
        exact List.mem_cons_of_mem _ (ih _ _ _ _ rq h)

theorem loadSweep_dev_ids (t : ℚ) :
    ∀ (ds : List Device) (buf : List Request) (w : ℚ) (s : ℕ) (evs : List Event),
    (loadSweep t ds buf w s evs).devices.map (fun d => d.id) = ds.map (fun d => d.id) := by
  intro ds
  induction ds with
  | nil => intro buf w s evs; rfl
  | cons d0 ds ih =>
    intro buf w s evs
    by_cases hb : d0.busy
    · rw [loadSweep_cons_busy t d0 ds buf w s evs hb]
      dsimp only [List.map_cons]
      rw [ih]
    · have hb' : d0.busy = false := by simpa using hb
      match buf with
      | [] => rw [loadSweep_cons_idle_nil t d0 ds w s evs hb']
      | rq :: buf' =>
        rw [loadSweep_cons_idle_load t d0 ds rq buf' w s evs hb']
        dsimp only [List.map_cons]
        rw [ih]
        rfl

theorem loadSweep_dev_mem (t : ℚ) :
    ∀ (ds : List Device) (buf : List Request) (w : ℚ) (s : ℕ) (evs : List Event),
    ∀ d' ∈ (loadSweep t ds buf w s evs).devices,
      d' ∈ ds ∨ ∃ d ∈ ds, ∃ rq ∈ buf, d' = (d.loadRequest rq t).1 := by
  intro ds
  induction ds with
  | nil => intro buf w s evs d' h; cases h
  | cons d0 ds ih =>
    intro buf w s evs d' h
    by_cases hb : d0.busy
    · rw [loadSweep_cons_busy t d0 ds buf w s evs hb] at h
      rcases List.mem_cons.mp h with rfl | h
      · exact Or.inl (List.mem_cons_self _ _)
      · rcases ih buf w s evs d' h with h | ⟨d, hd, rq, hrq, heq⟩
        · exact Or.inl (List.mem_cons_of_mem _ h)
        · exact Or.inr ⟨d, List.mem_cons_of_mem _ hd, rq, hrq, heq⟩
    · have hb' : d0.busy = false := by simpa using hb
      match buf with
      | [] =>
        rw [loadSweep_cons_idle_nil t d0 ds w s evs hb'] at h
        exact Or.inl h
      | rq0 :: buf' =>
        rw [loadSweep_cons_idle_load t d0 ds rq0 buf' w s evs hb'] at h
        rcases List.mem_cons.mp h with rfl | h
        · exact Or.inr ⟨d0, List.mem_cons_self _ _, rq0, List.mem_cons_self _ _, rfl⟩
        · rcases ih _ _ _ _ d' h with h | ⟨d, hd, rq, hrq, heq⟩
          · exact Or.inl (List.mem_cons_of_mem _ h)
          · exact Or.inr ⟨d, List.mem_cons_of_mem _ hd, rq,
              List.mem_cons_of_mem _ hrq, heq⟩

theorem loadSweep_events (t : ℚ) :
    ∀ (ds : List Device) (buf : List Request) (w : ℚ) (s : ℕ) (evs : List Event),
    ∀ ev ∈ (loadSweep t ds buf w s evs).events,
      ev ∈ evs ∨ (ev.type = .REQUEST_SERVED ∧
        (∃ d ∈ ds, ∃ n, ev.time = t + d.svcStream n ∧ ev.deviceId = d.id) ∧
        ∃ rq ∈ buf, ev.request = { rq with startServiceTime := t }) := by
  intro ds
  induction ds with
  | nil => intro buf w s evs ev h; exact Or.inl h
  | cons d0 ds ih =>
    intro buf w s evs ev h
    by_cases hb : d0.busy
    · rw [loadSweep_cons_busy t d0 ds buf w s evs hb] at h
      rcases ih buf w s evs ev h with h | ⟨hty, ⟨d, hd, n, hn⟩, rq, hrq, hreq⟩
      · exact Or.inl h
      · exact Or.inr ⟨hty, ⟨d, List.mem_cons_of_mem _ hd, n, hn⟩, rq, hrq, hreq⟩
    · have hb' : d0.busy = false := by simpa using hb
      match buf with
      | [] =>
        rw [loadSweep_cons_idle_nil t d0 ds w s evs hb'] at h
        exact Or.inl h
      | rq0 :: buf' =>
        rw [loadSweep_cons_idle_load t d0 ds rq0 buf' w s evs hb'] at h
        rcases ih _ _ _ _ ev h with h | ⟨hty, ⟨d, hd, n, hn⟩, rq, hrq, hreq⟩
        · rcases List.mem_append.mp h with h | h
          · exact Or.inl h
          · rcases List.mem_singleton.mp h with rfl
            refine Or.inr ⟨rfl, ⟨d0, List.mem_cons_self _ _, d0.svcCount, ?_, rfl⟩,
              rq0, List.mem_cons_self _ _, rfl⟩
            rfl
        · exact Or.inr ⟨hty, ⟨d, List.mem_cons_of_mem _ hd, n, hn⟩, rq,
            List.mem_cons_of_mem _ hrq, hreq⟩

/-! Lemmas about `Buffer.addRequest` needed for the controller invariants. -/

theorem addRequest_mem (buf : List Request) (c : Counters) (req : Request) :
    ∀ r' ∈ (Buffer.addRequest buf c req).requests, r' ∈ buf ∨ r' = setBufferEnter req := by
  intro r' hr'
  unfold Buffer.addRequest at hr'
  split at hr'
  · rcases insertByPriority_mem hr' with h | h
    · exact Or.inr h
    · exact Or.inl h
  · split at hr'
    · exact Or.inl hr'
    · split at hr'
      · split at hr'
        · rename_i evicted rest heq
          obtain ⟨l₁, l₂, rfl, rfl, _, _⟩ := extractFirst_eq_some heq
          rcases List.mem_append.mp hr' with h | h
          · rcases List.mem_append.mp h with h | h
            · exact Or.inl (List.mem_append.mpr (Or.inl h))
            · exact Or.inl (List.mem_append.mpr (Or.inr (List.mem_cons_of_mem _ h)))
          · exact Or.inr (List.mem_singleton.mp h)
        · exact Or.inl hr'
      · split at hr'
        · split at hr'
          · rename_i heq
            obtain ⟨l₁, l₂, rfl, rfl, _, _⟩ := extractFirst_eq_some heq
            rcases List.mem_append.mp hr' with h | h
            · rcases List.mem_append.mp h with h | h
              · exact Or.inl (List.mem_append.mpr (Or.inl h))
              · exact Or.inl (List.mem_append.mpr (Or.inr (List.mem_cons_of_mem _ h)))
            · exact Or.inr (List.mem_singleton.mp h)
          · split at hr'
            · rename_i heq
              obtain ⟨l₁, l₂, rfl, rfl, _, _⟩ := extractFirst_eq_some heq
              rcases List.mem_append.mp hr' with h | h
              · rcases List.mem_append.mp h with h | h
                · exact Or.inl (List.mem_append.mpr (Or.inl h))
                · exact Or.inl (List.mem_append.mpr (Or.inr (List.mem_cons_of_mem _ h)))
              · exact Or.inr (List.mem_singleton.mp h)
            · exact Or.inl hr'
        · exact Or.inl hr'

theorem addRequest_balance (buf : List Request) (c : Counters) (req : Request) :
    (Buffer.addRequest buf c req).requests.length + (Buffer.addRequest buf c req).counters.rejected
      = buf.length + c.rejected + 1 := by
  unfold Buffer.addRequest
  split
  · simp [insertByPriority_length]
    omega
  · split
    · simp [Counters.incrementRejectedRequests, Counters.incrementRejectedByPriority]
      split <;> simp <;> omega
    · split
      · split
        · rename_i heq
          have := extractFirst_length heq
          simp [Counters.incrementRejectedRequests, Counters.incrementRejectedByPriority]
          split <;> simp <;> omega
        · simp [Counters.incrementRejectedRequests, Counters.incrementRejectedByPriority]
          split <;> simp <;> omega
      · split
        · split
          · rename_i heq
            have := extractFirst_length heq
            simp [Counters.incrementRejectedRequests, Counters.incrementRejectedByPriority]
            split <;> simp <;> omega
          · split
            · rename_i heq
              have := extractFirst_length heq
              simp [Counters.incrementRejectedRequests, Counters.incrementRejectedByPriority]
              split <;> simp <;> omega
            · simp [Counters.incrementRejectedRequests, Counters.incrementRejectedByPriority]
              split <;> simp <;> omega
        · simp [Counters.incrementRejectedRequests, Counters.incrementRejectedByPriority]
          split <;> simp <;> omega

theorem addRequest_requests_or_added (buf : List Request) (c : Counters) (req : Request) :
    (Buffer.addRequest buf c req).requests = buf ∨
      (Buffer.addRequest buf c req).added = true := by
  unfold Buffer.addRequest
  split
  · exact Or.inr rfl
  · split
    · exact Or.inl rfl
    · split
      · split
        · exact Or.inr rfl
        · exact Or.inl rfl
      · split
        · split
          · exact Or.inr rfl
          · split
            · exact Or.inr rfl
            · exact Or.inl rfl
        · exact Or.inl rfl

theorem addRequest_not_added (buf : List Request) (c : Counters) (req : Request)
    (h : (Buffer.addRequest buf c req).added = false) :
    (Buffer.addRequest buf c req).requests = buf :=
  (addRequest_requests_or_added buf c req).resolve_right (fun hc => by simp [hc] at h)

theorem addRequest_nonempty_of_full (buf : List Request) (c : Counters) (req : Request)
    (h : buf ≠ []) : (Buffer.addRequest buf c req).requests ≠ [] := by
  have hbal := addRequest_balance buf c req
  have hlen := addRequest_length buf c req
  intro hc
  rw [hc] at hlen
  have : buf.length ≠ 0 := fun h0 => h (List.length_eq_zero.mp h0)
  revert hlen
  split <;> simp <;> omega

/-! Lemmas about `popMinEvent`. -/

theorem popMinEvent_none {l : List Event} (h : popMinEvent l = none) : l = [] := by
  cases l with
  | nil => rfl
  | cons e rest =>
    unfold popMinEvent at h
    cases hrec : popMinEvent rest with
    | none => simp only [hrec] at h; cases h
    | some pr =>
      obtain ⟨e', rest'⟩ := pr
      simp only [hrec] at h
      by_cases hc : e.time ≤ e'.time
      · rw [if_pos hc] at h; cases h
      · rw [if_neg hc] at h; cases h

theorem popMinEvent_perm :
    ∀ {l : List Event} {e : Event} {rest : List Event},
    popMinEvent l = some (e, rest) → l.Perm (e :: rest) := by
  intro l
  induction l with
  | nil => intro e rest h; cases h
  | cons e0 tl ih =>
    intro e rest h
    unfold popMinEvent at h
    cases hrec : popMinEvent tl with
    | none =>
      simp only [hrec, Option.some.injEq, Prod.mk.injEq] at h
      obtain ⟨rfl, rfl⟩ := h
      rw [popMinEvent_none hrec]
    | some pr =>
      obtain ⟨e', rest'⟩ := pr
      simp only [hrec] at h
      by_cases hc : e0.time ≤ e'.time
      · rw [if_pos hc] at h
        simp only [Option.some.injEq, Prod.mk.injEq] at h
        obtain ⟨rfl, rfl⟩ := h
        exact List.Perm.refl _
      · rw [if_neg hc] at h
        simp only [Option.some.injEq, Prod.mk.injEq] at h
        obtain ⟨rfl, rfl⟩ := h
        exact ((ih hrec).cons e0).trans (List.Perm.swap e' e0 rest')

theorem popMinEvent_min :
    ∀ {l : List Event} {e : Event} {rest : List Event},
    popMinEvent l = some (e, rest) → ∀ x ∈ rest, e.time ≤ x.time := by
  intro l
  induction l with
  | nil => intro e rest h; cases h
  | cons e0 tl ih =>
    intro e rest h x hx
    unfold popMinEvent at h
    cases hrec : popMinEvent tl with
    | none =>
      simp only [hrec, Option.some.injEq, Prod.mk.injEq] at h
      obtain ⟨rfl, rfl⟩ := h
      cases hx
    | some pr =>
      obtain ⟨e', rest'⟩ := pr
      simp only [hrec] at h
      by_cases hc : e0.time ≤ e'.time
      · rw [if_pos hc] at h
        simp only [Option.some.injEq, Prod.mk.injEq] at h
        obtain ⟨rfl, rfl⟩ := h
        have hmem : x ∈ e' :: rest' := (popMinEvent_perm hrec).mem_iff.mp hx
        rcases List.mem_cons.mp hmem with rfl | hmem
        · exact hc
        · exact le_trans hc (ih hrec x hmem)
      · rw [if_neg hc] at h
        simp only [Option.some.injEq, Prod.mk.injEq] at h
        obtain ⟨rfl, rfl⟩ := h
        rcases List.mem_cons.mp hx with rfl | hmem
        · exact le_of_lt (lt_of_not_le hc)
        · exact ih hrec x hmem

theorem popMinEvent_mem {l : List Event} {e : Event} {rest : List Event}
    (h : popMinEvent l = some (e, rest)) : e ∈ l :=
  (popMinEvent_perm h).symm.subset (List.mem_cons_self _ _)

theorem popMinEvent_rest_sub {l : List Event} {e : Event} {rest : List Event}
    (h : popMinEvent l = some (e, rest)) : ∀ x ∈ rest, x ∈ l :=
  fun x hx => (popMinEvent_perm h).symm.subset (List.mem_cons_of_mem _ hx)

/-- The controller invariant, parametrised by the number `k` of requests that
have been generated and popped from the event queue but not yet admitted or
rejected (`k = 1` exactly while an arrival event is being handled). -/
structure InvP (st : Controller) (k : ℕ) : Prop where
  conservation : st.generatedCount =
    pendingArrivals st.events + st.buffer.length + st.servedCount +
      st.counters.rejected + k
  servedLe : st.servedCount ≤ st.maxRequests
  busyOfBuf : st.buffer ≠ [] → ∀ d ∈ st.devices, d.busy = true
  devIds : ∀ i d, st.devices[i]? = some d → d.id = ((i + 1 : ℕ) : ℤ)
  servedEvIds : ∀ ev ∈ st.events, ev.type = .REQUEST_SERVED →
    1 ≤ ev.deviceId ∧ ev.deviceId ≤ (st.devices.length : ℤ)
  evTime : ∀ ev ∈ st.events, st.lastEventTime ≤ ev.time
  genArr : ∀ ev ∈ st.events, ev.type = .REQUEST_GENERATED →
    ev.time = ev.request.arrivalTime
  evBet : ∀ ev ∈ st.events, ev.request.bufferEnterTime = ev.request.arrivalTime
  bufArr : ∀ rq ∈ st.buffer, rq.bufferEnterTime = rq.arrivalTime ∧
    rq.arrivalTime ≤ st.lastEventTime
  devCur : ∀ d ∈ st.devices, ∀ rq, d.current = some rq →
    rq.bufferEnterTime = rq.arrivalTime ∧ rq.arrivalTime ≤ rq.startServiceTime
  gapsNN : ∀ src ∈ st.sources, ∀ n, 0 ≤ src.gapStream n
  svcsNN : ∀ d ∈ st.devices, ∀ n, 0 ≤ d.svcStream n

theorem Inv_scheduleNext {st : Controller} {k : ℕ} (hinv : InvP st k) (srcIdx : ℕ) (t : ℚ)
    (hlast : st.lastEventTime ≤ t) : InvP (st.scheduleNextRequest srcIdx t) k := by
  unfold Controller.scheduleNextRequest
  split
  · exact hinv
  · split
    · exact hinv
    · rename_i src hs
      have hsrc : src ∈ st.sources := List.getElem?_mem hs
      refine ⟨?_, ?_, ?_, ?_, ?_, ?_, ?_, ?_, ?_, ?_, ?_, ?_⟩ <;> dsimp only
      · have := hinv.conservation
        simp only [pendingArrivals, List.countP_append, List.countP_cons,
          List.countP_nil] at *
        simp
        omega
      · exact hinv.servedLe
      · exact hinv.busyOfBuf
      · exact hinv.devIds
      · intro ev hev hty
        rcases List.mem_append.mp hev with h | h
        · exact hinv.servedEvIds ev h hty
        · rcases List.mem_singleton.mp h with rfl
          cases hty
      · intro ev hev
        rcases List.mem_append.mp hev with h | h
        · exact hinv.evTime ev h
        · rcases List.mem_singleton.mp h with rfl
          show st.lastEventTime ≤ t + src.gapStream src.gapCount
          have h0 : 0 ≤ src.gapStream src.gapCount := hinv.gapsNN src hsrc _
          linarith
      · intro ev hev hty
        rcases List.mem_append.mp hev with h | h
        · exact hinv.genArr ev h hty
        · rcases List.mem_singleton.mp h with rfl
          rfl
      · intro ev hev
        rcases List.mem_append.mp hev with h | h
        · exact hinv.evBet ev h
        · rcases List.mem_singleton.mp h with rfl
          rfl
      · exact hinv.bufArr
      · exact hinv.devCur
      · intro src' hsrc' n
        rcases List.mem_or_eq_of_mem_set hsrc' with h | rfl
        · exact hinv.gapsNN src' h n
        · exact hinv.gapsNN src hsrc n
      · exact hinv.svcsNN

theorem loadSweep_pendingArrivals (t : ℚ) :
    ∀ (ds : List Device) (buf : List Request) (w : ℚ) (s : ℕ) (evs : List Event),
    pendingArrivals (loadSweep t ds buf w s evs).events = pendingArrivals evs := by
  intro ds
  induction ds with
  | nil => intro buf w s evs; rfl
  | cons d0 ds ih =>
    intro buf w s evs
    by_cases hb : d0.busy
    · rw [loadSweep_cons_busy t d0 ds buf w s evs hb]
      exact ih buf w s evs
    · have hb' : d0.busy = false := by simpa using hb
      match buf with
      | [] => rw [loadSweep_cons_idle_nil t d0 ds w s evs hb']
      | rq :: buf' =>
        rw [loadSweep_cons_idle_load t d0 ds rq buf' w s evs hb']
        dsimp only
        rw [ih]
        simp [pendingArrivals]

theorem loadSweep_dev_len (t : ℚ) (ds : List Device) (buf : List Request) (w : ℚ) (s : ℕ)
    (evs : List Event) :
    (loadSweep t ds buf w s evs).devices.length = ds.length := by
  have h := loadSweep_dev_ids t ds buf w s evs
  have := congrArg List.length h
  simpa using this

theorem loadSweep_dev_ids_at (t : ℚ) (ds : List Device) (buf : List Request) (w : ℚ) (s : ℕ)
    (evs : List Event) (i : ℕ) (d' : Device)
    (h : (loadSweep t ds buf w s evs).devices[i]? = some d') :
    ∃ d, ds[i]? = some d ∧ d.id = d'.id := by
  have hm := loadSweep_dev_ids t ds buf w s evs
  have h1 : ((loadSweep t ds buf w s evs).devices.map (fun d => d.id))[i]? =
      (ds.map (fun d => d.id))[i]? := by rw [hm]
  rw [List.getElem?_map, List.getElem?_map, h] at h1
  simp only [Option.map_some'] at h1
  obtain ⟨d, hd, hid⟩ := Option.map_eq_some'.mp h1.symm
  exact ⟨d, hd, hid⟩

/-- Every field of the controller invariant is preserved by
`loadRequestsToFreeDevices`, except that the served-count ceiling must be
supplied by the caller (it follows from the at-most-one-idle-device argument
at each call site). -/
theorem Inv_loadDevices {st : Controller} (t : ℚ)
    (hcons : st.generatedCount = pendingArrivals st.events + st.buffer.length +
      st.servedCount + st.counters.rejected)
    (hdevIds : ∀ i d, st.devices[i]? = some d → d.id = ((i + 1 : ℕ) : ℤ))
    (hservedEv : ∀ ev ∈ st.events, ev.type = .REQUEST_SERVED →
      1 ≤ ev.deviceId ∧ ev.deviceId ≤ (st.devices.length : ℤ))
    (hevTime : ∀ ev ∈ st.events, st.lastEventTime ≤ ev.time)
    (hgenArr : ∀ ev ∈ st.events, ev.type = .REQUEST_GENERATED →
      ev.time = ev.request.arrivalTime)
    (hevBet : ∀ ev ∈ st.events, ev.request.bufferEnterTime = ev.request.arrivalTime)
    (hbufArr : ∀ rq ∈ st.buffer, rq.bufferEnterTime = rq.arrivalTime ∧
      rq.arrivalTime ≤ st.lastEventTime)
    (hdevCur : ∀ d ∈ st.devices, ∀ rq, d.current = some rq →
      rq.bufferEnterTime = rq.arrivalTime ∧ rq.arrivalTime ≤ rq.startServiceTime)
    (hgaps : ∀ src ∈ st.sources, ∀ n, 0 ≤ src.gapStream n)
    (hsvcs : ∀ d ∈ st.devices, ∀ n, 0 ≤ d.svcStream n)
    (hlast : st.lastEventTime = t)
    (hbound : (st.loadRequestsToFreeDevices t).servedCount ≤ st.maxRequests) :
    InvP (st.loadRequestsToFreeDevices t) 0 := by
  have hdevlen : (st.loadRequestsToFreeDevices t).devices.length = st.devices.length := by
    unfold Controller.loadRequestsToFreeDevices
    exact loadSweep_dev_len t st.devices st.buffer st.totalWaitTime st.servedCount st.events
  refine ⟨?_, ?_, ?_, ?_, ?_, ?_, ?_, ?_, ?_, ?_, ?_, ?_⟩
  · show st.generatedCount = _
    unfold Controller.loadRequestsToFreeDevices
    dsimp only
    rw [loadSweep_pendingArrivals]
    have h2 := loadSweep_conservation t st.devices st.buffer st.totalWaitTime
      st.servedCount st.events
    omega
  · exact hbound
  · unfold Controller.loadRequestsToFreeDevices
    dsimp only
    exact loadSweep_busy_of_ne_nil t st.devices st.buffer st.totalWaitTime
      st.servedCount st.events
  · intro i d' h
    unfold Controller.loadRequestsToFreeDevices at h
    dsimp only at h
    obtain ⟨d, hd, hid⟩ := loadSweep_dev_ids_at t st.devices st.buffer st.totalWaitTime
      st.servedCount st.events i d' h
    rw [← hid]
    exact hdevIds i d hd
  · intro ev hev hty
    unfold Controller.loadRequestsToFreeDevices at hev ⊢
    dsimp only at hev ⊢
    rw [loadSweep_dev_len]
    rcases loadSweep_events t st.devices st.buffer st.totalWaitTime st.servedCount
      st.events ev hev with h | ⟨_, ⟨d, hd, n, hn, hdev⟩, _⟩
    · exact hservedEv ev h hty
    · rw [hdev]
      obtain ⟨i, hi⟩ := List.getElem?_of_mem hd
      have hidi := hdevIds i d hi
      have hlen : i < st.devices.length := by
        by_contra hge
        rw [List.getElem?_eq_none (Nat.le_of_not_lt hge)] at hi
        cases hi
      rw [hidi]
      constructor
      · have : (1 : ℤ) ≤ ((i + 1 : ℕ) : ℤ) := by exact_mod_cast Nat.succ_le_succ (Nat.zero_le i)
        exact this
      · exact_mod_cast Nat.succ_le_of_lt hlen
  · intro ev hev
    unfold Controller.loadRequestsToFreeDevices at hev ⊢
    dsimp only at hev ⊢
    rcases loadSweep_events t st.devices st.buffer st.totalWaitTime st.servedCount
      st.events ev hev with h | ⟨_, ⟨d, hd, n, hn, _⟩, _⟩
    · exact hevTime ev h
    · rw [hn, hlast]
      have := hsvcs d hd n
      linarith
  · intro ev hev hty
    unfold Controller.loadRequestsToFreeDevices at hev
    dsimp only at hev
    rcases loadSweep_events t st.devices st.buffer st.totalWaitTime st.servedCount
      st.events ev hev with h | ⟨hty', _, _⟩
    · exact hgenArr ev h hty
    · rw [hty] at hty'; cases hty'
  · intro ev hev
    unfold Controller.loadRequestsToFreeDevices at hev
    dsimp only at hev
    rcases loadSweep_events t st.devices st.buffer st.totalWaitTime st.servedCount
      st.events ev hev with h | ⟨_, _, rq, hrq, hreq⟩
    · exact hevBet ev h
    · rw [hreq]
      exact (hbufArr rq hrq).1
  · intro rq hrq
    unfold Controller.loadRequestsToFreeDevices at hrq
    dsimp only at hrq
    exact hbufArr rq (loadSweep_buffer_sub t st.devices st.buffer st.totalWaitTime
      st.servedCount st.events rq hrq)
  · intro d' hd' rq hrq
    unfold Controller.loadRequestsToFreeDevices at hd'
    dsimp only at hd'
    rcases loadSweep_dev_mem t st.devices st.buffer st.totalWaitTime st.servedCount
      st.events d' hd' with h | ⟨d, hd, rq0, hrq0, rfl⟩
    · exact hdevCur d' h rq hrq
    · unfold Device.loadRequest at hrq
      dsimp only at hrq
      simp only [Option.some.injEq] at hrq
      obtain ⟨hbet, harr⟩ := hbufArr rq0 hrq0
      rw [← hrq]
      dsimp only
      refine ⟨hbet, ?_⟩
      rw [hlast] at harr
      exact harr
  · exact hgaps
  · intro d' hd' n
    unfold Controller.loadRequestsToFreeDevices at hd'
    dsimp only at hd'
    rcases loadSweep_dev_mem t st.devices st.buffer st.totalWaitTime st.servedCount
      st.events d' hd' with h | ⟨d, hd, rq0, hrq0, rfl⟩
    · exact hsvcs d' h n
    · exact hsvcs d hd n

theorem Inv_handleGen {st : Controller} (req : Request) (t : ℚ)
    (hinv : InvP st 1)
    (hguard : st.servedCount < st.maxRequests)
    (hlast : st.lastEventTime = t)
    (hreqArr : req.arrivalTime = t)
    (hreqBet : req.bufferEnterTime = req.arrivalTime) :
    InvP (st.handleRequestGenerated req t) 0 := by
  have hbal := addRequest_balance st.buffer st.counters req
  have hlen := addRequest_length st.buffer st.counters req
  unfold Controller.handleRequestGenerated
  dsimp only
  by_cases hadd : (Buffer.addRequest st.buffer st.counters req).added = true
  · rw [if_pos hadd]
    have hbufArr1 : ∀ rq ∈ (Buffer.addRequest st.buffer st.counters req).requests,
        rq.bufferEnterTime = rq.arrivalTime ∧ rq.arrivalTime ≤ st.lastEventTime := by
      intro rq hrq
      rcases addRequest_mem st.buffer st.counters req rq hrq with h | rfl
      · exact hinv.bufArr rq h
      · refine ⟨rfl, ?_⟩
        show req.arrivalTime ≤ st.lastEventTime
        rw [hreqArr, hlast]
    have hmain : InvP (Controller.loadRequestsToFreeDevices
        { st with buffer := (Buffer.addRequest st.buffer st.counters req).requests,
                  counters := (Buffer.addRequest st.buffer st.counters req).counters } t) 0 := by
      refine Inv_loadDevices t ?_ hinv.devIds hinv.servedEvIds hinv.evTime hinv.genArr
        hinv.evBet hbufArr1 hinv.devCur hinv.gapsNN hinv.svcsNN hlast ?_
      · have hc := hinv.conservation
        show st.generatedCount = pendingArrivals st.events +
          (Buffer.addRequest st.buffer st.counters req).requests.length +
          st.servedCount + (Buffer.addRequest st.buffer st.counters req).counters.rejected
        omega
      · by_cases hemp : st.buffer = []
        · have hlen0 : st.buffer.length = 0 := by rw [hemp]; rfl
          have hle1 : (Buffer.addRequest st.buffer st.counters req).requests.length ≤ 1 := by
            rw [hlen0] at hlen
            simp [BUFFER_SIZE] at hlen
            omega
          show (loadSweep t st.devices
            (Buffer.addRequest st.buffer st.counters req).requests
            st.totalWaitTime st.servedCount st.events).servedCount ≤ st.maxRequests
          have h2 := loadSweep_conservation t st.devices
            (Buffer.addRequest st.buffer st.counters req).requests
            st.totalWaitTime st.servedCount st.events
          omega
        · have hbusy := hinv.busyOfBuf hemp
          show (loadSweep t st.devices
            (Buffer.addRequest st.buffer st.counters req).requests
            st.totalWaitTime st.servedCount st.events).servedCount ≤ st.maxRequests
          rw [loadSweep_all_busy t st.devices
            (Buffer.addRequest st.buffer st.counters req).requests st.totalWaitTime
            st.servedCount st.events hbusy]
          exact le_of_lt hguard
    split
    · exact Inv_scheduleNext hmain req.sourceIndex t (le_of_eq hlast)
    · exact hmain
  · rw [if_neg hadd]
    have hb : (Buffer.addRequest st.buffer st.counters req).added = false := by
      revert hadd
      cases (Buffer.addRequest st.buffer st.counters req).added <;> simp
    have hreqs := addRequest_not_added st.buffer st.counters req hb
    have hmain : InvP
        { st with buffer := (Buffer.addRequest st.buffer st.counters req).requests,
                  counters := (Buffer.addRequest st.buffer st.counters req).counters } 0 := by
      refine ⟨?_, hinv.servedLe, ?_, hinv.devIds, hinv.servedEvIds, hinv.evTime,
        hinv.genArr, hinv.evBet, ?_, hinv.devCur, hinv.gapsNN, hinv.svcsNN⟩
      · have hc := hinv.conservation
        show st.generatedCount = pendingArrivals st.events +
          (Buffer.addRequest st.buffer st.counters req).requests.length +
          st.servedCount + (Buffer.addRequest st.buffer st.counters req).counters.rejected + 0
        omega
      · show (Buffer.addRequest st.buffer st.counters req).requests ≠ [] → _
        rw [hreqs]
        exact hinv.busyOfBuf
      · show ∀ rq ∈ (Buffer.addRequest st.buffer st.counters req).requests, _
        rw [hreqs]
        exact hinv.bufArr
    split
    · exact Inv_scheduleNext hmain req.sourceIndex t (le_of_eq hlast)
    · exact hmain

theorem countP_idle_set_le_one :
    ∀ (ds : List Device) (idx : ℕ) (v : Device),
    (∀ d ∈ ds, d.busy = true) →
    (ds.set idx v).countP (fun d => !d.busy) ≤ 1 := by
  intro ds
  induction ds with
  | nil => intro idx v _; simp
  | cons d0 ds ih =>
    intro idx v hall
    cases idx with
    | zero =>
      simp only [List.set_cons_zero, List.countP_cons]
      have h0 : ds.countP (fun d => !d.busy) = 0 := by
        rw [List.countP_eq_zero]
        intro d hd
        simp [hall d (List.mem_cons_of_mem _ hd)]
      have h1 : (if (!v.busy) = true then 1 else 0) ≤ 1 := by split <;> simp
      omega
    | succ n =>
      simp only [List.set_cons_succ, List.countP_cons]
      have h0 : (d0.busy = true) := hall d0 (List.mem_cons_self _ _)
      have := ih n v (fun d hd => hall d (List.mem_cons_of_mem _ hd))
      simp [h0]
      omega

theorem Inv_handleFin {st : Controller} (deviceId : ℤ) (t : ℚ)
    (hinv : InvP st 0)
    (hguard : st.servedCount < st.maxRequests)
    (hlast : st.lastEventTime = t) :
    InvP (st.handleRequestFinished deviceId t) 0 := by
  unfold Controller.handleRequestFinished
  dsimp only
  -- characterise the intermediate state after (possibly) freeing a device
  by_cases hpos : 1 ≤ deviceId
  · rw [if_pos hpos]
    cases hget : st.devices[(deviceId - 1).toNat]? with
    | none =>
      dsimp only
      refine Inv_loadDevices t hinv.conservation hinv.devIds hinv.servedEvIds hinv.evTime
        hinv.genArr hinv.evBet hinv.bufArr hinv.devCur hinv.gapsNN hinv.svcsNN hlast ?_
      by_cases hemp : st.buffer = []
      · show (loadSweep t st.devices st.buffer st.totalWaitTime st.servedCount
          st.events).servedCount ≤ st.maxRequests
        have h2 := loadSweep_conservation t st.devices st.buffer st.totalWaitTime
          st.servedCount st.events
        have : st.buffer.length = 0 := by rw [hemp]; rfl
        omega
      · show (loadSweep t st.devices st.buffer st.totalWaitTime st.servedCount
          st.events).servedCount ≤ st.maxRequests
        rw [loadSweep_all_busy t st.devices st.buffer st.totalWaitTime st.servedCount
          st.events (hinv.busyOfBuf hemp)]
        exact le_of_lt hguard
    | some d =>
      dsimp only
      have hmemd : d ∈ st.devices := List.getElem?_mem hget
      set idx := (deviceId - 1).toNat with hidx
      set ds' := st.devices.set idx (d.freeDevice t) with hds'
      have hlen' : ds'.length = st.devices.length := by
        rw [hds']
        exact List.length_set ..
      have hdevIds' : ∀ i d', ds'[i]? = some d' → d'.id = ((i + 1 : ℕ) : ℤ) := by
        intro i d' h
        rw [hds'] at h
        by_cases hij : idx = i
        · subst hij
          have hlt : idx < st.devices.length := by
            by_contra hge
            rw [List.getElem?_set_self' ] at h
            · rw [List.getElem?_eq_none (Nat.le_of_not_lt hge)] at h
              simp at h
          rw [List.getElem?_set_self hlt] at h
          simp only [Option.some.injEq] at h
          rw [← h]
          show d.id = _
          exact hinv.devIds idx d hget
        · rw [List.getElem?_set_ne hij] at h
          exact hinv.devIds i d' h
      have hdevCur' : ∀ d' ∈ ds', ∀ rq, d'.current = some rq →
          rq.bufferEnterTime = rq.arrivalTime ∧ rq.arrivalTime ≤ rq.startServiceTime := by
        intro d' hd' rq hrq
        rw [hds'] at hd'
        rcases List.mem_or_eq_of_mem_set hd' with h | rfl
        · exact hinv.devCur d' h rq hrq
        · unfold Device.freeDevice at hrq
          dsimp only at hrq
          cases hrq
      have hsvcs' : ∀ d' ∈ ds', ∀ n, 0 ≤ d'.svcStream n := by
        intro d' hd' n
        rw [hds'] at hd'
        rcases List.mem_or_eq_of_mem_set hd' with h | rfl
        · exact hinv.svcsNN d' h n
        · exact hinv.svcsNN d hmemd n
      have hservedEv' : ∀ ev ∈ st.events, ev.type = .REQUEST_SERVED →
          1 ≤ ev.deviceId ∧ ev.deviceId ≤ (ds'.length : ℤ) := by
        intro ev hev hty
        rw [hlen']
        exact hinv.servedEvIds ev hev hty
      refine @Inv_loadDevices { st with devices := ds' } t hinv.conservation
        hdevIds' hservedEv' hinv.evTime hinv.genArr hinv.evBet hinv.bufArr hdevCur'
        hinv.gapsNN hsvcs' hlast ?_
      by_cases hemp : st.buffer = []
      · show (loadSweep t ds' st.buffer st.totalWaitTime st.servedCount
          st.events).servedCount ≤ st.maxRequests
        have h2 := loadSweep_conservation t ds' st.buffer st.totalWaitTime
          st.servedCount st.events
        have : st.buffer.length = 0 := by rw [hemp]; rfl
        omega
      · show (loadSweep t ds' st.buffer st.totalWaitTime st.servedCount
          st.events).servedCount ≤ st.maxRequests
        have h3 := loadSweep_served_le t ds' st.buffer st.totalWaitTime st.servedCount
          st.events
        have h4 : ds'.countP (fun d => !d.busy) ≤ 1 := by
          rw [hds']
          exact countP_idle_set_le_one st.devices idx (d.freeDevice t)
            (hinv.busyOfBuf hemp)
        omega
  · rw [if_neg hpos]
    refine Inv_loadDevices t hinv.conservation hinv.devIds hinv.servedEvIds hinv.evTime
      hinv.genArr hinv.evBet hinv.bufArr hinv.devCur hinv.gapsNN hinv.svcsNN hlast ?_
    by_cases hemp : st.buffer = []
    · show (loadSweep t st.devices st.buffer st.totalWaitTime st.servedCount
        st.events).servedCount ≤ st.maxRequests
      have h2 := loadSweep_conservation t st.devices st.buffer st.totalWaitTime
        st.servedCount st.events
      have : st.buffer.length = 0 := by rw [hemp]; rfl
      omega
    · show (loadSweep t st.devices st.buffer st.totalWaitTime st.servedCount
        st.events).servedCount ≤ st.maxRequests
      rw [loadSweep_all_busy t st.devices st.buffer st.totalWaitTime st.servedCount
        st.events (hinv.busyOfBuf hemp)]
      exact le_of_lt hguard

theorem updateLastEventTime_of_le (st : Controller) (t : ℚ) (h : st.lastEventTime ≤ t) :
    st.updateLastEventTime t = { st with lastEventTime := t } := by
  unfold Controller.updateLastEventTime
  split
  · rfl
  · rename_i hc
    have heq : st.lastEventTime = t := le_antisymm h (not_lt.mp hc)
    rw [← heq]

theorem Inv_loopStep {st : Controller} (hinv : InvP st 0) : InvP st.loopStep 0 := by
  unfold Controller.loopStep
  split
  · rename_i hguard
    split
    · exact hinv
    · rename_i ev rest heq
      have hevmem : ev ∈ st.events := popMinEvent_mem heq
      have hmin := popMinEvent_min heq
      have hsub := popMinEvent_rest_sub heq
      have hperm := popMinEvent_perm heq
      have hlast0 : st.lastEventTime ≤ ev.time := hinv.evTime ev hevmem
      rw [updateLastEventTime_of_le { st with events := rest } ev.time hlast0]
      have base_servedEv : ∀ e ∈ rest, e.type = .REQUEST_SERVED →
          1 ≤ e.deviceId ∧ e.deviceId ≤ (st.devices.length : ℤ) :=
        fun e he hty => hinv.servedEvIds e (hsub e he) hty
      have base_evTime : ∀ e ∈ rest, ev.time ≤ e.time := hmin
      have base_genArr : ∀ e ∈ rest, e.type = .REQUEST_GENERATED →
          e.time = e.request.arrivalTime :=
        fun e he hty => hinv.genArr e (hsub e he) hty
      have base_evBet : ∀ e ∈ rest, e.request.bufferEnterTime = e.request.arrivalTime :=
        fun e he => hinv.evBet e (hsub e he)
      have base_bufArr : ∀ rq ∈ st.buffer, rq.bufferEnterTime = rq.arrivalTime ∧
          rq.arrivalTime ≤ ev.time :=
        fun rq hrq => ⟨(hinv.bufArr rq hrq).1, le_trans (hinv.bufArr rq hrq).2 hlast0⟩
      split
      · rename_i hty
        have harr : ev.time = ev.request.arrivalTime := hinv.genArr ev hevmem hty
        have hcnt : pendingArrivals st.events = pendingArrivals rest + 1 := by
          unfold pendingArrivals
          rw [hperm.countP_eq, List.countP_cons]
          simp [hty]
        have hinv1 : InvP { st with events := rest, lastEventTime := ev.time } 1 := by
          refine ⟨?_, hinv.servedLe, hinv.busyOfBuf, hinv.devIds, base_servedEv,
            base_evTime, base_genArr, base_evBet, base_bufArr, hinv.devCur,
            hinv.gapsNN, hinv.svcsNN⟩
          have hc := hinv.conservation
          show st.generatedCount = pendingArrivals rest + st.buffer.length +
            st.servedCount + st.counters.rejected + 1
          omega
        exact Inv_handleGen ev.request ev.time hinv1 hguard rfl harr.symm
          (hinv.evBet ev hevmem)
      · rename_i hty
        have hcnt : pendingArrivals st.events = pendingArrivals rest := by
          unfold pendingArrivals
          rw [hperm.countP_eq, List.countP_cons]
          simp [hty]
        have hinv1 : InvP { st with events := rest, lastEventTime := ev.time } 0 := by
          refine ⟨?_, hinv.servedLe, hinv.busyOfBuf, hinv.devIds, base_servedEv,
            base_evTime, base_genArr, base_evBet, base_bufArr, hinv.devCur,
            hinv.gapsNN, hinv.svcsNN⟩
          have hc := hinv.conservation
          show st.generatedCount = pendingArrivals rest + st.buffer.length +
            st.servedCount + st.counters.rejected + 0
          omega
        exact Inv_handleFin ev.deviceId ev.time hinv1 hguard rfl
  · exact hinv

theorem Inv_runFor {st : Controller} (hinv : InvP st 0) :
    ∀ n : ℕ, InvP (st.runFor n) 0 := by
  intro n
  induction n generalizing st with
  | zero => exact hinv
  | succ n ih => exact ih (Inv_loopStep hinv)

theorem pendingArrivals_append_gen (evs : List Event) (ev : Event)
    (hty : ev.type = .REQUEST_GENERATED) :
    pendingArrivals (evs ++ [ev]) = pendingArrivals evs + 1 := by
  simp [pendingArrivals, List.countP_append, List.countP_cons, hty]

theorem initLoop_gen_count (mx : ℕ) :
    ∀ (srcs : List Source) (gid gen : ℕ) (evs : List Event),
    (initLoop mx srcs gid gen evs).2.2.1 + pendingArrivals evs =
      gen + pendingArrivals (initLoop mx srcs gid gen evs).2.2.2 := by
  intro srcs
  induction srcs with
  | nil => intro gid gen evs; rfl
  | cons src rest ih =>
    intro gid gen evs
    unfold initLoop
    split
    · rfl
    · dsimp only
      have h := ih (gid + 1) (gen + 1)
        (evs ++ [⟨.REQUEST_GENERATED, 0 + src.gapStream src.gapCount,
          Request.mkNew (gid + 1) src.priority (0 + src.gapStream src.gapCount)
            src.sourceIndex, -1⟩])
      rw [pendingArrivals_append_gen _ _ rfl] at h
      omega

theorem initLoop_events (mx : ℕ) :
    ∀ (srcs : List Source) (gid gen : ℕ) (evs : List Event),
    ∀ e ∈ (initLoop mx srcs gid gen evs).2.2.2,
      e ∈ evs ∨ (e.type = .REQUEST_GENERATED ∧ e.time = e.request.arrivalTime ∧
        e.request.bufferEnterTime = e.request.arrivalTime ∧
        ∃ src ∈ srcs, ∃ n, e.time = 0 + src.gapStream n) := by
  intro srcs
  induction srcs with
  | nil => intro gid gen evs e he; exact Or.inl he
  | cons src rest ih =>
    intro gid gen evs e he
    unfold initLoop at he
    split at he
    · exact Or.inl he
    · dsimp only at he
      rcases ih (gid + 1) (gen + 1) _ e he with h | ⟨hty, htime, hbet, src', hsrc', n, hn⟩
      · rcases List.mem_append.mp h with h | h
        · exact Or.inl h
        · rcases List.mem_singleton.mp h with rfl
          exact Or.inr ⟨rfl, rfl, rfl,
            src, List.mem_cons_self _ _, src.gapCount, rfl⟩
      · exact Or.inr ⟨hty, htime, hbet, src', List.mem_cons_of_mem _ hsrc', n, hn⟩

theorem initLoop_sources (mx : ℕ) :
    ∀ (srcs : List Source) (gid gen : ℕ) (evs : List Event),
    ∀ src' ∈ (initLoop mx srcs gid gen evs).1,
      ∃ src ∈ srcs, src'.gapStream = src.gapStream := by
  intro srcs
  induction srcs with
  | nil => intro gid gen evs src' h; cases h
  | cons src rest ih =>
    intro gid gen evs src' h
    unfold initLoop at h
    split at h
    · exact ⟨src', h, rfl⟩
    · dsimp only at h
      rcases List.mem_cons.mp h with rfl | h
      · exact ⟨src, List.mem_cons_self _ _, rfl⟩
      · obtain ⟨src0, hsrc0, heq⟩ := ih (gid + 1) (gen + 1) _ src' h
        exact ⟨src0, List.mem_cons_of_mem _ hsrc0, heq⟩

theorem Inv_initial (nc np nf nd mx : ℕ) (gaps svcs : ℕ → ℕ → ℚ)
    (hg : ∀ i n, 0 ≤ gaps i n) (hs : ∀ i n, 0 ≤ svcs i n) :
    InvP (Controller.initial nc np nf nd mx gaps svcs) 0 := by
  have hsrc0 : ∀ src ∈ (Controller.mkNew nc np nf nd mx gaps svcs).sources,
      ∀ n, 0 ≤ src.gapStream n := by
    intro src hsrc n
    unfold Controller.mkNew at hsrc
    dsimp only at hsrc
    rcases List.mem_append.mp hsrc with h | h
    · rcases List.mem_append.mp h with h | h
      · obtain ⟨i, _, rfl⟩ := List.mem_map.mp h
        exact hg i n
      · obtain ⟨i, _, rfl⟩ := List.mem_map.mp h
        exact hg (nc + i) n
    · obtain ⟨i, _, rfl⟩ := List.mem_map.mp h
      exact hg (nc + np + i) n
  have hdev0 : ∀ d ∈ (Controller.mkNew nc np nf nd mx gaps svcs).devices,
      d.busy = false ∧ d.current = none ∧ ∀ n, 0 ≤ d.svcStream n := by
    intro d hd
    unfold Controller.mkNew at hd
    dsimp only at hd
    obtain ⟨i, _, rfl⟩ := List.mem_map.mp hd
    exact ⟨rfl, rfl, fun n => hs i n⟩
  unfold Controller.initial Controller.initRequests
  dsimp only
  refine ⟨?_, ?_, ?_, ?_, ?_, ?_, ?_, ?_, ?_, ?_, ?_, ?_⟩
  · show (initLoop mx _ _ _ _).2.2.1 = pendingArrivals (initLoop mx _ _ _ _).2.2.2 + 0 +
      0 + 0 + 0
    have h := initLoop_gen_count mx (Controller.mkNew nc np nf nd mx gaps svcs).sources
      (Controller.mkNew nc np nf nd mx gaps svcs).globalRequestId
      (Controller.mkNew nc np nf nd mx gaps svcs).generatedCount
      (Controller.mkNew nc np nf nd mx gaps svcs).events
    have h0 : pendingArrivals (Controller.mkNew nc np nf nd mx gaps svcs).events = 0 := rfl
    have hgen0 : (Controller.mkNew nc np nf nd mx gaps svcs).generatedCount = 0 := rfl
    omega
  · show (0 : ℕ) ≤ mx
    exact Nat.zero_le mx
  · intro hne
    exact absurd rfl hne
  · intro i d h
    show d.id = _
    have h' : ((List.range nd).map fun i => Device.mkNew ((i + 1 : ℕ) : ℤ) (svcs i))[i]? =
        some d := h
    rw [List.getElem?_map] at h'
    cases hr : (List.range nd)[i]? with
    | none => rw [hr] at h'; cases h'
    | some j =>
      rw [hr] at h'
      have hjlt : i < nd := by
        have := List.getElem?_eq_some_iff.mp hr
        obtain ⟨hlt, _⟩ := this
        simpa using hlt
      have hji : j = i := by
        rw [List.getElem?_range hjlt] at hr
        simp only [Option.some.injEq] at hr
        exact hr.symm
      subst hji
      simp only [Option.map_some', Option.some.injEq] at h'
      rw [← h']
      rfl
  · intro ev hev hty
    rcases initLoop_events mx _ _ _ _ ev hev with h | ⟨hty', _, _, _⟩
    · cases h
    · rw [hty] at hty'; cases hty'
  · intro ev hev
    show (0 : ℚ) ≤ ev.time
    rcases initLoop_events mx _ _ _ _ ev hev with h | ⟨_, _, _, src, hsrc, n, hn⟩
    · cases h
    · rw [hn]
      have := hsrc0 src hsrc n
      linarith
  · intro ev hev hty
    rcases initLoop_events mx _ _ _ _ ev hev with h | ⟨_, htime, _, _⟩
    · cases h
    · exact htime
  · intro ev hev
    rcases initLoop_events mx _ _ _ _ ev hev with h | ⟨_, _, hbet, _⟩
    · cases h
    · exact hbet
  · intro rq hrq
    cases hrq
  · intro d hd rq hrq
    have := (hdev0 d hd).2.1
    rw [this] at hrq
    cases hrq
  · intro src' hsrc' n
    obtain ⟨src, hsrc, heq⟩ := initLoop_sources mx _ _ _ _ src' hsrc'
    rw [heq]
    exact hsrc0 src hsrc n
  · intro d hd n
    exact (hdev0 d hd).2.2 n

/-- A concrete oracle stream for witnesses: every draw equals one hour. -/
def oneStream : ℕ → ℕ → ℚ := fun _ _ => 1

theorem oneStream_nonneg : ∀ i n, 0 ≤ oneStream i n := by
  intro i n
  unfold oneStream
  norm_num

/-- A concrete tiny run: one CORPORATE source, one device, target one served
request, all draws equal to one hour. -/
def runDemo : Controller := Controller.initial 1 0 0 1 1 oneStream oneStream

/-- C3 (amended): at every state of the run — in particular in the state in
which `Controller::work` returns — the generated counter equals the served
counter plus the rejected counter plus the buffer occupancy plus the number
of pending REQUEST_GENERATED (arrival) events; requests loaded on a device
are already included in the served counter (which is incremented at dispatch
time), so they do not appear as a separate term, and when the run ends with
an exhausted event queue the identity reduces to
`generated = served + rejected + buffer occupancy`. -/
theorem c3_conservation (nc np nf nd mx : ℕ) (gaps svcs : ℕ → ℕ → ℚ)
    (hg : ∀ i n, 0 ≤ gaps i n) (hs : ∀ i n, 0 ≤ svcs i n) (n : ℕ) :
    ((Controller.initial nc np nf nd mx gaps svcs).runFor n).generatedCount =
      ((Controller.initial nc np nf nd mx gaps svcs).runFor n).servedCount +
      ((Controller.initial nc np nf nd mx gaps svcs).runFor n).counters.rejected +
      ((Controller.initial nc np nf nd mx gaps svcs).runFor n).buffer.length +
      pendingArrivals ((Controller.initial nc np nf nd mx gaps svcs).runFor n).events ∧
    (((Controller.initial nc np nf nd mx gaps svcs).runFor n).events = [] →
      ((Controller.initial nc np nf nd mx gaps svcs).runFor n).generatedCount =
        ((Controller.initial nc np nf nd mx gaps svcs).runFor n).servedCount +
        ((Controller.initial nc np nf nd mx gaps svcs).runFor n).counters.rejected +
        ((Controller.initial nc np nf nd mx gaps svcs).runFor n).buffer.length) := by
  have h := (Inv_runFor (Inv_initial nc np nf nd mx gaps svcs hg hs) n).conservation
  constructor
  · omega
  · intro he
    rw [he] at h
    have h0 : pendingArrivals ([] : List Event) = 0 := rfl
    omega

/-- Witness for C3's amended theorem at the concrete one-source run. -/
theorem c3_conservation_witness :
    (∀ i n, 0 ≤ oneStream i n) ∧
    ((runDemo.runFor 1).generatedCount =
      (runDemo.runFor 1).servedCount + (runDemo.runFor 1).counters.rejected +
      (runDemo.runFor 1).buffer.length + pendingArrivals (runDemo.runFor 1).events ∧
    ((runDemo.runFor 1).events = [] →
      (runDemo.runFor 1).generatedCount =
        (runDemo.runFor 1).servedCount + (runDemo.runFor 1).counters.rejected +
        (runDemo.runFor 1).buffer.length)) :=
  ⟨oneStream_nonneg,
    c3_conservation 1 0 0 1 1 oneStream oneStream oneStream_nonneg oneStream_nonneg 1⟩

/-- C3 is false as stated: in the one-source one-device run with target 1,
`work` returns (the served target is reached) while the just-dispatched
request is both counted in the served counter and still loaded on the
device, so `generated = 1` but
`served + rejected + (resident in buffer or loaded on a device) = 2`. -/
theorem c3_counterexample :
    (runDemo.runFor 1).done = true ∧
    ¬ ((runDemo.runFor 1).generatedCount =
        (runDemo.runFor 1).servedCount + (runDemo.runFor 1).counters.rejected +
        ((runDemo.runFor 1).buffer.length + loadedCount (runDemo.runFor 1).devices)) := by
  constructor
  · with_unfolding_all decide
  · with_unfolding_all decide

/-- C6: in every reachable state of the event loop (the oracle draws being
non-negative, as every `std::exponential_distribution` sample is), every
request loaded on a device satisfies
`startServiceTime >= bufferEnterTime >= arrivalTime`. -/
theorem c6_dispatch_times (nc np nf nd mx : ℕ) (gaps svcs : ℕ → ℕ → ℚ)
    (hg : ∀ i n, 0 ≤ gaps i n) (hs : ∀ i n, 0 ≤ svcs i n) (n : ℕ) :
    ∀ (i : ℕ) (d : Device) (rq : Request),
      ((Controller.initial nc np nf nd mx gaps svcs).runFor n).devices[i]? = some d →
      d.current = some rq →
      rq.bufferEnterTime ≤ rq.startServiceTime ∧ rq.arrivalTime ≤ rq.bufferEnterTime := by
  intro i d rq hi hrq
  have h := (Inv_runFor (Inv_initial nc np nf nd mx gaps svcs hg hs) n).devCur d
    (List.getElem?_mem hi) rq hrq
  exact ⟨h.1 ▸ h.2, le_of_eq h.1.symm⟩

/-- Witness for C6 at the concrete run: after one loop iteration the single
device is loaded, and the theorem applies to it. -/
theorem c6_dispatch_times_witness :
    ((runDemo.runFor 1).devices[0]?.map fun d => d.current.isSome) = some true ∧
    (∀ (i : ℕ) (d : Device) (rq : Request),
      (runDemo.runFor 1).devices[i]? = some d → d.current = some rq →
      rq.bufferEnterTime ≤ rq.startServiceTime ∧ rq.arrivalTime ≤ rq.bufferEnterTime) :=
  ⟨by with_unfolding_all decide,
    c6_dispatch_times 1 0 0 1 1 oneStream oneStream oneStream_nonneg oneStream_nonneg 1⟩

/-- C8: in every reachable state, `bufferEnterTime` equals `arrivalTime` for
every request held in an event, in the buffer, or loaded on a device — the
constructor initialises it to the arrival time and every admission branch
re-sets it to the arrival time — so the wait `t - bufferEnterTime`
accumulated when a buffered request is dispatched at time `t` always equals
`t - arrivalTime`. -/
theorem c8_buffer_enter_equals_arrival (nc np nf nd mx : ℕ) (gaps svcs : ℕ → ℕ → ℚ)
    (hg : ∀ i n, 0 ≤ gaps i n) (hs : ∀ i n, 0 ≤ svcs i n) (n : ℕ) :
    (∀ ev ∈ ((Controller.initial nc np nf nd mx gaps svcs).runFor n).events,
      ev.request.bufferEnterTime = ev.request.arrivalTime) ∧
    (∀ rq ∈ ((Controller.initial nc np nf nd mx gaps svcs).runFor n).buffer,
      rq.bufferEnterTime = rq.arrivalTime) ∧
    (∀ d ∈ ((Controller.initial nc np nf nd mx gaps svcs).runFor n).devices,
      ∀ rq, d.current = some rq → rq.bufferEnterTime = rq.arrivalTime) ∧
    (∀ rq ∈ ((Controller.initial nc np nf nd mx gaps svcs).runFor n).buffer,
      ∀ t : ℚ, t - rq.bufferEnterTime = t - rq.arrivalTime) := by
  have h := Inv_runFor (Inv_initial nc np nf nd mx gaps svcs hg hs) n
  refine ⟨h.evBet, fun rq hrq => (h.bufArr rq hrq).1,
    fun d hd rq hrq => (h.devCur d hd rq hrq).1, fun rq hrq t => ?_⟩
  rw [(h.bufArr rq hrq).1]

/-- Witness for C8 at the concrete run. -/
theorem c8_buffer_enter_equals_arrival_witness :
    ((runDemo.runFor 1).devices[0]?.map fun d => d.current.isSome) = some true ∧
    ((∀ ev ∈ (runDemo.runFor 1).events,
      ev.request.bufferEnterTime = ev.request.arrivalTime) ∧
    (∀ rq ∈ (runDemo.runFor 1).buffer, rq.bufferEnterTime = rq.arrivalTime) ∧
    (∀ d ∈ (runDemo.runFor 1).devices,
      ∀ rq, d.current = some rq → rq.bufferEnterTime = rq.arrivalTime) ∧
    (∀ rq ∈ (runDemo.runFor 1).buffer,
      ∀ t : ℚ, t - rq.bufferEnterTime = t - rq.arrivalTime)) :=
  ⟨by with_unfolding_all decide,
    c8_buffer_enter_equals_arrival 1 0 0 1 1 oneStream oneStream oneStream_nonneg
      oneStream_nonneg 1⟩

/-- C9: every REQUEST_SERVED event in the queue of a reachable state carries
a `deviceId` between 1 and the number of devices (the ids assigned at
construction), so the access `devices_[deviceId - 1]` in
`handleRequestFinished` is always in bounds. -/
theorem c9_served_event_device_in_bounds (nc np nf nd mx : ℕ) (gaps svcs : ℕ → ℕ → ℚ)
    (hg : ∀ i n, 0 ≤ gaps i n) (hs : ∀ i n, 0 ≤ svcs i n) (n : ℕ) :
    ∀ ev ∈ ((Controller.initial nc np nf nd mx gaps svcs).runFor n).events,
      ev.type = .REQUEST_SERVED →
      1 ≤ ev.deviceId ∧
      ev.deviceId ≤ (((Controller.initial nc np nf nd mx gaps svcs).runFor n).devices.length : ℤ) ∧
      (ev.deviceId - 1).toNat <
        ((Controller.initial nc np nf nd mx gaps svcs).runFor n).devices.length := by
  intro ev hev hty
  have h := (Inv_runFor (Inv_initial nc np nf nd mx gaps svcs hg hs) n).servedEvIds ev hev hty
  obtain ⟨h1, h2⟩ := h
  refine ⟨h1, h2, ?_⟩
  omega

/-- Witness for C9 at the concrete run, whose queue holds one REQUEST_SERVED
event after one loop iteration. -/
theorem c9_served_event_device_in_bounds_witness :
    (runDemo.runFor 1).events.countP (fun e => e.type == .REQUEST_SERVED) = 1 ∧
    (∀ ev ∈ (runDemo.runFor 1).events, ev.type = .REQUEST_SERVED →
      1 ≤ ev.deviceId ∧ ev.deviceId ≤ ((runDemo.runFor 1).devices.length : ℤ) ∧
      (ev.deviceId - 1).toNat < (runDemo.runFor 1).devices.length) :=
  ⟨by with_unfolding_all decide,
    c9_served_event_device_in_bounds 1 0 0 1 1 oneStream oneStream oneStream_nonneg
      oneStream_nonneg 1⟩

/-- Projection facts: none of the loop operations changes `maxRequests_`. -/
theorem scheduleNext_maxRequests (st : Controller) (idx : ℕ) (t : ℚ) :
    (st.scheduleNextRequest idx t).maxRequests = st.maxRequests := by
  unfold Controller.scheduleNextRequest
  split
  · rfl
  · split <;> rfl

theorem handleGen_maxRequests (st : Controller) (req : Request) (t : ℚ) :
    (st.handleRequestGenerated req t).maxRequests = st.maxRequests := by
  unfold Controller.handleRequestGenerated
  dsimp only
  by_cases hadd : (Buffer.addRequest st.buffer st.counters req).added = true
  · rw [if_pos hadd]
    split
    · rw [scheduleNext_maxRequests]
      rfl
    · rfl
  · rw [if_neg hadd]
    split
    · rw [scheduleNext_maxRequests]
    · rfl

theorem handleFin_maxRequests (st : Controller) (deviceId : ℤ) (t : ℚ) :
    (st.handleRequestFinished deviceId t).maxRequests = st.maxRequests := by
  unfold Controller.handleRequestFinished
  dsimp only
  split
  · split <;> rfl
  · rfl

theorem updateLast_maxRequests (st : Controller) (t : ℚ) :
    (st.updateLastEventTime t).maxRequests = st.maxRequests := by
  unfold Controller.updateLastEventTime
  split <;> rfl

theorem loopStep_maxRequests (st : Controller) :
    st.loopStep.maxRequests = st.maxRequests := by
  unfold Controller.loopStep
  split
  · split
    · rfl
    · split
      · rw [handleGen_maxRequests, updateLast_maxRequests]
      · rw [handleFin_maxRequests, updateLast_maxRequests]
  · rfl

theorem runFor_maxRequests (st : Controller) :
    ∀ n : ℕ, (st.runFor n).maxRequests = st.maxRequests := by
  intro n
  induction n generalizing st with
  | zero => rfl
  | succ n ih => rw [Controller.runFor, ih, loopStep_maxRequests]

/-- C10 (amended): when `Controller::work` returns, either the event queue is
empty or the served counter has reached the target; moreover the served
counter never strictly exceeds the target — each processed event serves at
most one request, because whenever the buffer is nonempty every device is
busy, so a dispatch sweep finds at most one idle device — hence at an exit
with a nonempty queue the served counter equals the target exactly. -/
theorem c10_work_exit (nc np nf nd mx : ℕ) (gaps svcs : ℕ → ℕ → ℚ)
    (hg : ∀ i n, 0 ≤ gaps i n) (hs : ∀ i n, 0 ≤ svcs i n) (n : ℕ) :
    ((Controller.initial nc np nf nd mx gaps svcs).runFor n).servedCount ≤ mx ∧
    (((Controller.initial nc np nf nd mx gaps svcs).runFor n).done = true →
      ((Controller.initial nc np nf nd mx gaps svcs).runFor n).events = [] ∨
      mx ≤ ((Controller.initial nc np nf nd mx gaps svcs).runFor n).servedCount) ∧
    (((Controller.initial nc np nf nd mx gaps svcs).runFor n).done = true →
      ((Controller.initial nc np nf nd mx gaps svcs).runFor n).events = [] ∨
      ((Controller.initial nc np nf nd mx gaps svcs).runFor n).servedCount = mx) := by
  have hled := (Inv_runFor (Inv_initial nc np nf nd mx gaps svcs hg hs) n).servedLe
  have hmax : ((Controller.initial nc np nf nd mx gaps svcs).runFor n).maxRequests = mx :=
    runFor_maxRequests (Controller.initial nc np nf nd mx gaps svcs) n
  rw [hmax] at hled
  have hdone : ((Controller.initial nc np nf nd mx gaps svcs).runFor n).done = true →
      ((Controller.initial nc np nf nd mx gaps svcs).runFor n).events = [] ∨
      mx ≤ ((Controller.initial nc np nf nd mx gaps svcs).runFor n).servedCount := by
    intro hd
    unfold Controller.done at hd
    simp only [Bool.or_eq_true, decide_eq_true_eq, List.isEmpty_iff] at hd
    rcases hd with h | h
    · right
      rw [hmax] at h
      exact h
    · left
      exact h
  refine ⟨hled, hdone, fun hd => ?_⟩
  rcases hdone hd with h | h
  · exact Or.inl h
  · exact Or.inr (le_antisymm hled h)

/-- Witness for C10's amended theorem: the one-source run exits with the
target reached, a nonempty queue, and served equal to the target. -/
theorem c10_work_exit_witness :
    ((runDemo.runFor 1).done = true ∧ ¬ (runDemo.runFor 1).events = []) ∧
    ((runDemo.runFor 1).servedCount ≤ 1 ∧
    ((runDemo.runFor 1).done = true →
      (runDemo.runFor 1).events = [] ∨ 1 ≤ (runDemo.runFor 1).servedCount) ∧
    ((runDemo.runFor 1).done = true →
      (runDemo.runFor 1).events = [] ∨ (runDemo.runFor 1).servedCount = 1)) :=
  ⟨by with_unfolding_all decide,
    c10_work_exit 1 0 0 1 1 oneStream oneStream oneStream_nonneg oneStream_nonneg 1⟩

/-- C10 is false as stated in its second half: the final served counter can
never strictly exceed the target, for any configuration, any non-negative
oracle streams (as exponential draws always are) and any number of loop
iterations. -/
theorem c10_counterexample :
    ¬ ∃ (nc np nf nd mx : ℕ) (gaps svcs : ℕ → ℕ → ℚ) (n : ℕ),
      (∀ i k, 0 ≤ gaps i k) ∧ (∀ i k, 0 ≤ svcs i k) ∧
      mx < ((Controller.initial nc np nf nd mx gaps svcs).runFor n).servedCount := by
  rintro ⟨nc, np, nf, nd, mx, gaps, svcs, n, hg, hs, hlt⟩
  have hled := (Inv_runFor (Inv_initial nc np nf nd mx gaps svcs hg hs) n).servedLe
  have hmax : ((Controller.initial nc np nf nd mx gaps svcs).runFor n).maxRequests = mx :=
    runFor_maxRequests (Controller.initial nc np nf nd mx gaps svcs) n
  rw [hmax] at hled
  omega
